import Mathlib

/-!
# BinanceBot: the request-signing and response-decoding client (`backend/binance/cli.go`)

A shallow embedding of `cli.go`.  The Go standard-library functions the file calls
(`crypto/sha256`, `crypto/hmac`, `encoding/hex`, `net/url`, `encoding/json`, `net/http`,
`time`) are embedded next to it, each in a namespace named after its Go package.

Conventions.
* A Go `string` is a Lean `String`; its bytes are its UTF-8 encoding.
* A Go `[]byte` is a `List Nat`; every consumer reads an element modulo 256.
* 32-bit words are `Nat` with an explicit `% 2 ^ 32`.
* A Go result pair `(*T, error)` is `Option T × Option Error`.
-/

set_option autoImplicit false

/-! ## `crypto/sha256` (FIPS 180-4) -/

namespace sha256

/-- Round constants: the first 32 bits of the fractional parts of the cube roots of the
first 64 primes. -/
def K : List Nat :=
  [0x428a2f98, 0x71374491, 0xb5c0fbcf, 0xe9b5dba5, 0x3956c25b, 0x59f111f1, 0x923f82a4, 0xab1c5ed5,
   0xd807aa98, 0x12835b01, 0x243185be, 0x550c7dc3, 0x72be5d74, 0x80deb1fe, 0x9bdc06a7, 0xc19bf174,
   0xe49b69c1, 0xefbe4786, 0x0fc19dc6, 0x240ca1cc, 0x2de92c6f, 0x4a7484aa, 0x5cb0a9dc, 0x76f988da,
   0x983e5152, 0xa831c66d, 0xb00327c8, 0xbf597fc7, 0xc6e00bf3, 0xd5a79147, 0x06ca6351, 0x14292967,
   0x27b70a85, 0x2e1b2138, 0x4d2c6dfc, 0x53380d13, 0x650a7354, 0x766a0abb, 0x81c2c92e, 0x92722c85,
   0xa2bfe8a1, 0xa81a664b, 0xc24b8b70, 0xc76c51a3, 0xd192e819, 0xd6990624, 0xf40e3585, 0x106aa070,
   0x19a4c116, 0x1e376c08, 0x2748774c, 0x34b0bcb5, 0x391c0cb3, 0x4ed8aa4a, 0x5b9cca4f, 0x682e6ff3,
   0x748f82ee, 0x78a5636f, 0x84c87814, 0x8cc70208, 0x90befffa, 0xa4506ceb, 0xbef9a3f7, 0xc67178f2]

/-- The eight 32-bit chaining words. -/
structure State where
  a : Nat
  b : Nat
  c : Nat
  d : Nat
  e : Nat
  f : Nat
  g : Nat
  h : Nat
  deriving DecidableEq, Repr

/-- Initial hash value: the first 32 bits of the fractional parts of the square roots of
the first 8 primes. -/
def init : State :=
  ⟨0x6a09e667, 0xbb67ae85, 0x3c6ef372, 0xa54ff53a, 0x510e527f, 0x9b05688c, 0x1f83d9ab, 0x5be0cd19⟩

/-- Addition of 32-bit words. -/
def add32 (x y : Nat) : Nat := (x + y) % 2 ^ 32

/-- Rotate a 32-bit word right by `n` bits. -/
def rotr (x n : Nat) : Nat := ((x >>> n) ||| (x <<< (32 - n))) % 2 ^ 32

/-- Bitwise complement of a 32-bit word. -/
def not32 (x : Nat) : Nat := (2 ^ 32 - 1) ^^^ (x % 2 ^ 32)

def Ch (x y z : Nat) : Nat := (x &&& y) ^^^ (not32 x &&& z)

def Maj (x y z : Nat) : Nat := (x &&& y) ^^^ (x &&& z) ^^^ (y &&& z)

def bigSigma0 (x : Nat) : Nat := rotr x 2 ^^^ rotr x 13 ^^^ rotr x 22

def bigSigma1 (x : Nat) : Nat := rotr x 6 ^^^ rotr x 11 ^^^ rotr x 25

def smallSigma0 (x : Nat) : Nat := rotr x 7 ^^^ rotr x 18 ^^^ (x >>> 3)

def smallSigma1 (x : Nat) : Nat := rotr x 17 ^^^ rotr x 19 ^^^ (x >>> 10)

/-- Big-endian 32-bit word of (up to) four bytes. -/
def be32 (bs : List Nat) : Nat :=
  bs.foldl (fun acc x => acc * 256 + x % 256) 0

/-- The sixteen message words of a 64-byte block. -/
def blockWords : Nat → List Nat → List Nat
  | 0, _ => []
  | n + 1, bs => be32 (bs.take 4) :: blockWords n (bs.drop 4)

/-- Extend the message schedule by `n` words; `w` holds the words so far. -/
def extend : Nat → List Nat → List Nat
  | 0, w => w
  | n + 1, w =>
    let t := w.length
    let x := add32 (add32 (smallSigma1 (w.getD (t - 2) 0)) (w.getD (t - 7) 0))
      (add32 (smallSigma0 (w.getD (t - 15) 0)) (w.getD (t - 16) 0))
    extend n (w ++ [x])

/-- The 64-word message schedule of a block. -/
def schedule (block : List Nat) : List Nat := extend 48 (blockWords 16 block)

/-- One round with round constant `k` and schedule word `w`. -/
def round (s : State) (kw : Nat × Nat) : State :=
  let t1 := add32 (add32 (add32 s.h (bigSigma1 s.e)) (add32 (Ch s.e s.f s.g) kw.1)) kw.2
  let t2 := add32 (bigSigma0 s.a) (Maj s.a s.b s.c)
  ⟨add32 t1 t2, s.a, s.b, s.c, add32 s.d t1, s.e, s.f, s.g⟩

/-- Compression of one 64-byte block into the chaining value. -/
def compress (s : State) (block : List Nat) : State :=
  let r := (K.zip (schedule block)).foldl round s
  ⟨add32 s.a r.a, add32 s.b r.b, add32 s.c r.c, add32 s.d r.d,
   add32 s.e r.e, add32 s.f r.f, add32 s.g r.g, add32 s.h r.h⟩

/-- Big-endian bytes of `x`, `n` of them. -/
def beBytes : Nat → Nat → List Nat
  | 0, _ => []
  | n + 1, x => (x / 256 ^ n) % 256 :: beBytes n x

/-- Padding: a one bit, zero bits up to 56 modulo 64 bytes, then the bit length as a
64-bit big-endian integer. -/
def pad (msg : List Nat) : List Nat :=
  let l := msg.length
  msg ++ [0x80] ++ List.replicate ((119 - l % 64) % 64) 0 ++ beBytes 8 (8 * l % 2 ^ 64)

/-- Absorb `n` consecutive 64-byte blocks. -/
def absorb : Nat → State → List Nat → State
  | 0, s, _ => s
  | n + 1, s, bs => absorb n (compress s (bs.take 64)) (bs.drop 64)

/-- The 32-byte digest of a chaining value. -/
def digest (s : State) : List Nat :=
  [s.a, s.b, s.c, s.d, s.e, s.f, s.g, s.h].flatMap (beBytes 4)

/-- SHA-256 of a byte string. -/
def Sum256 (msg : List Nat) : List Nat :=
  let p := pad msg
  digest (absorb (p.length / 64) init p)

end sha256

/-! ## `crypto/hmac` (RFC 2104) with SHA-256 -/

namespace hmac

/-- Block size of SHA-256 in bytes. -/
def BlockSize : Nat := 64

/-- The key as one block: hashed when longer than a block, then zero-padded. -/
def blockKey (key : List Nat) : List Nat :=
  let k := if key.length > BlockSize then sha256.Sum256 key else key
  k ++ List.replicate (BlockSize - k.length) 0

/-- Value of `h.Sum(nil)` after `h := hmac.New(sha256.New, key); h.Write(msg)`. -/
def Sum (key msg : List Nat) : List Nat :=
  let k := blockKey key
  let ipad := k.map (fun x => (x % 256) ^^^ 0x36)
  let opad := k.map (fun x => (x % 256) ^^^ 0x5c)
  sha256.Sum256 (opad ++ sha256.Sum256 (ipad ++ msg))

end hmac

/-! ## `encoding/hex` -/

namespace hex

def hextable : List Char := "0123456789abcdef".data

/-- Two lowercase digits per byte: `hextable[v>>4]`, `hextable[v&0x0f]`. -/
def encodeByte (v : Nat) : List Char :=
  [hextable.getD (v % 256 / 16) '0', hextable.getD (v % 16) '0']

def EncodeToString (src : List Nat) : String := ⟨src.flatMap encodeByte⟩

end hex

/-- The bytes of a Go string: the UTF-8 encoding of its code points. -/
def utf8Char (c : Char) : List Nat :=
  let n := c.toNat
  if n < 0x80 then [n]
  else if n < 0x800 then [0xC0 + n / 64, 0x80 + n % 64]
  else if n < 0x10000 then [0xE0 + n / 4096, 0x80 + n / 64 % 64, 0x80 + n % 64]
  else [0xF0 + n / 262144, 0x80 + n / 4096 % 64, 0x80 + n / 64 % 64, 0x80 + n % 64]

def bytes (s : String) : List Nat := s.data.flatMap utf8Char

/-! ## Errors -/

/-- Modelled from the spec: the Exchange Error record `BinanceError` is declared outside
`cli.go`; the wire format is a JSON object with an integer `code` and a string `msg`. -/
structure BinanceError where
  Code : Int
  Msg : String
  deriving DecidableEq, Repr

/-- The values of Go's `error` interface that reach a caller of the client. -/
inductive Error
  /-- An error value produced outside the decoding path: by a request model's `Validate`,
  by `url.Parse`, by the HTTP transport or by `strconv` -/
  | errorString (msg : String)
  /-- The sentinel `io.EOF` -/
  | EOF
  /-- The sentinel `io.ErrUnexpectedEOF` -/
  | ErrUnexpectedEOF
  /-- A `*json.SyntaxError`; the offset is not modelled and `msg` names the situation -/
  | SyntaxError (msg : String)
  /-- A `*json.UnmarshalTypeError`: JSON `value` cannot be stored in Go type `type` -/
  | UnmarshalTypeError (value : String) (type : String)
  /-- A `BinanceError` used as an `error` -/
  | Binance (e : BinanceError)
  deriving DecidableEq, Repr

/-! ## `net/url` -/

namespace url

/-- The type `url.Values`, a `map[string][]string`, as its list of entries; the order of
the list is the (unspecified) iteration order of the map. -/
structure Values where
  entries : List (String × List String)
  deriving DecidableEq, Repr

namespace Values

/-- The literal `url.Values{}`. -/
def empty : Values := ⟨[]⟩

/-- The value of `v[key]`: the slice stored under `key`, `nil` when absent. -/
def get (v : Values) (key : String) : List String := (v.entries.lookup key).getD []

/-- The keys, in iteration order. -/
def keys (v : Values) : List String := v.entries.map Prod.fst

/-- Method `Set`: `v[key] = []string{value}`. -/
def Set (v : Values) (key value : String) : Values :=
  ⟨(key, [value]) :: v.entries.filter (fun e => e.1 != key)⟩

/-- Method `Add`: `v[key] = append(v[key], value)`. -/
def Add (v : Values) (key value : String) : Values :=
  ⟨(key, v.get key ++ [value]) :: v.entries.filter (fun e => e.1 != key)⟩

end Values

/-- Lexicographic comparison of code-point sequences; on UTF-8 strings this is Go's
bytewise string order. -/
def leChars : List Char → List Char → Bool
  | [], _ => true
  | _ :: _, [] => false
  | a :: as, b :: bs =>
    if a.toNat < b.toNat then true
    else if b.toNat < a.toNat then false
    else leChars as bs

/-- The order `slices.Sort` puts keys in. -/
def KeyLE (a b : String) : Prop := leChars a.data b.data = true

instance : DecidableRel KeyLE := fun a b => inferInstanceAs (Decidable (leChars a.data b.data = true))

def upperhex : List Char := "0123456789ABCDEF".data

/-- Function `shouldEscape(c, encodeQueryComponent)`: only unreserved characters pass. -/
def shouldEscape (c : Nat) : Bool :=
  if (97 ≤ c && c ≤ 122) || (65 ≤ c && c ≤ 90) || (48 ≤ c && c ≤ 57) then false
  else if c = 45 || c = 95 || c = 46 || c = 126 then false
  else true

/-- One byte of `QueryEscape`: a space becomes `+`, an escaped byte `%XX`. -/
def escapeByte (c : Nat) : List Char :=
  if c = 32 then ['+']
  else if shouldEscape c then ['%', upperhex.getD (c / 16) '0', upperhex.getD (c % 16) '0']
  else [Char.ofNat c]

def QueryEscape (s : String) : String := ⟨(bytes s).flatMap escapeByte⟩

/-- One step of the inner loop of `Encode`: write `&` when the buffer is not empty, then
`keyEscaped=QueryEscape(v)`. -/
def writePair (keyEscaped : String) (buf : String) (v : String) : String :=
  (if buf.length > 0 then buf ++ "&" else buf) ++ keyEscaped ++ "=" ++ QueryEscape v

/-- Method `Values.Encode`: the entries in "URL encoded" form, sorted by key. -/
def Values.Encode (v : Values) : String :=
  if v.entries.length = 0 then ""
  else
    let keys := List.insertionSort KeyLE v.keys
    keys.foldl (fun buf k => (v.get k).foldl (writePair (QueryEscape k)) buf) ""

/-- The type `url.URL`, as far as the client reads and writes it.  `front` is what
`String` renders before the query (scheme, opaque part or authority, escaped path) and
`Fragment` is the escaped fragment; neither depends on the query fields. -/
structure URL where
  front : String
  ForceQuery : Bool
  RawQuery : String
  Fragment : String
  deriving DecidableEq, Repr

/-- Method `URL.String`: the query follows `?` when it is forced or not empty, the fragment
follows `#` when it is not empty. -/
def URL.String (u : URL) : String :=
  u.front ++ (if u.ForceQuery || u.RawQuery != "" then "?" ++ u.RawQuery else "")
    ++ (if u.Fragment != "" then "#" ++ u.Fragment else "")

end url

/-! ## Library functions left abstract -/

/-- The standard-library functions reached from `cli.go` that are parameters of the
embedding: `url.Parse`; `removeEmptyPort`, which `http.NewRequest` applies to the host of
the parsed URL; and `strconv.ParseFloat(·, 64)` with the type `float64` and its zero. -/
structure Lib where
  Parse : String → Except Error url.URL
  removeEmptyPort : url.URL → url.URL
  float64 : Type
  zero : float64
  ParseFloat : String → Except Error float64

/-! ## `encoding/json` -/

namespace json

/-- A JSON value as the scanner delimits it; a number keeps its literal, which is
converted only when the target type is known. -/
inductive Value
  | null
  | bool (b : Bool)
  | number (lit : String)
  | string (s : String)
  | array (elems : List Value)
  | object (members : List (String × Value))
  deriving Repr

/-- The name `UnmarshalTypeError.Value` gives to a JSON value. -/
def Value.kind : Value → String
  | .null => "null"
  | .bool _ => "bool"
  | .number _ => "number"
  | .string _ => "string"
  | .array _ => "array"
  | .object _ => "object"

/-- Result of scanning a value off the front of the input: the value and the unread
input, or the input ended inside the value, or a character cannot continue it. -/
inductive Scan (α : Type)
  | ok (v : α) (rest : List Char)
  | eof
  | invalid
  deriving Repr

def isSpace (c : Char) : Bool := c = ' ' || c = '\t' || c = '\r' || c = '\n'

def skipSpace : List Char → List Char
  | [] => []
  | c :: cs => if isSpace c then skipSpace cs else c :: cs

def isDigit (c : Char) : Bool := 48 ≤ c.toNat && c.toNat ≤ 57

def hexVal (c : Char) : Option Nat :=
  let n := c.toNat
  if 48 ≤ n && n ≤ 57 then some (n - 48)
  else if 97 ≤ n && n ≤ 102 then some (n - 87)
  else if 65 ≤ n && n ≤ 70 then some (n - 55)
  else none

/-- The four hexadecimal digits of a `\u` escape. -/
def scanHex4 : List Char → Scan Nat
  | a :: b :: c :: d :: rest =>
    match hexVal a, hexVal b, hexVal c, hexVal d with
    | some x, some y, some z, some w => .ok (((x * 16 + y) * 16 + z) * 16 + w) rest
    | _, _, _, _ => .invalid
  | cs => if cs.all (fun c => (hexVal c).isSome) then .eof else .invalid

/-- The character a one-letter escape stands for. -/
def unescape (c : Char) : Option Char :=
  if c = '"' then some '"'
  else if c = '\\' then some '\\'
  else if c = '/' then some '/'
  else if c = 'b' then some (Char.ofNat 8)
  else if c = 'f' then some (Char.ofNat 12)
  else if c = 'n' then some '\n'
  else if c = 'r' then some '\r'
  else if c = 't' then some '\t'
  else none

/-- The replacement character U+FFFD. -/
def replacement : Char := Char.ofNat 0xFFFD

/-- The code point of a `\u` escape `u` followed by `rest`: a surrogate pair is combined,
a lone surrogate is replaced. -/
def decodeEscape (u : Nat) (rest : List Char) : Char × List Char :=
  if 0xD800 ≤ u && u < 0xE000 then
    match rest with
    | a :: b :: rest1 =>
      if a = '\\' && b = 'u' then
        match scanHex4 rest1 with
        | .ok u2 rest2 =>
          if u < 0xDC00 && 0xDC00 ≤ u2 && u2 < 0xE000 then
            (Char.ofNat (0x10000 + (u - 0xD800) * 1024 + (u2 - 0xDC00)), rest2)
          else (replacement, rest)
        | _ => (replacement, rest)
      else (replacement, rest)
    | _ => (replacement, rest)
  else (Char.ofNat u, rest)

/-- A string literal after its opening quote; `acc` holds the decoded characters in
reverse. -/
def scanString : Nat → List Char → List Char → Scan String
  | 0, _, _ => .invalid
  | _ + 1, _, [] => .eof
  | n + 1, acc, c :: rest =>
    if c = '"' then .ok ⟨acc.reverse⟩ rest
    else if c = '\\' then
      match rest with
      | [] => .eof
      | e :: rest1 =>
        if e = 'u' then
          match scanHex4 rest1 with
          | .ok u rest2 =>
            scanString n ((decodeEscape u rest2).1 :: acc) (decodeEscape u rest2).2
          | .eof => .eof
          | .invalid => .invalid
        else
          match unescape e with
          | some ch => scanString n (ch :: acc) rest1
          | none => .invalid
    else if c.toNat < 0x20 then .invalid
    else scanString n (c :: acc) rest

/-- The longest run of digits at the front, and what follows it. -/
def takeDigits : List Char → List Char × List Char
  | [] => ([], [])
  | c :: cs => if isDigit c then ((takeDigits cs).1.cons c, (takeDigits cs).2) else ([], c :: cs)

/-- An optional minus sign (or plus sign, when `plus` allows it), and what follows it. -/
def takeSign (plus : Bool) : List Char → List Char × List Char
  | [] => ([], [])
  | c :: r => if c = '-' || (plus && c = '+') then ([c], r) else ([], c :: r)

/-- The exponent part of a number, if any; `acc` is the literal so far. -/
def scanExp (acc : List Char) (cs : List Char) : Scan String :=
  match cs with
  | [] => .ok ⟨acc⟩ []
  | e :: r =>
    if e = 'e' || e = 'E' then
      match (takeDigits (takeSign true r).2).1, (takeDigits (takeSign true r).2).2 with
      | [], [] => .eof
      | [], _ :: _ => .invalid
      | d :: ds, r1 => .ok ⟨acc ++ e :: (takeSign true r).1 ++ d :: ds⟩ r1
    else .ok ⟨acc⟩ cs

/-- The fraction part of a number, if any, then the exponent. -/
def scanFrac (acc : List Char) (cs : List Char) : Scan String :=
  match cs with
  | [] => scanExp acc []
  | c :: r =>
    if c = '.' then
      match (takeDigits r).1, (takeDigits r).2 with
      | [], [] => .eof
      | [], _ :: _ => .invalid
      | d :: ds, r1 => scanExp (acc ++ '.' :: d :: ds) r1
    else scanExp acc cs

/-- A number literal: `-? (0 | [1-9][0-9]*) (. [0-9]+)? ([eE] [+-]? [0-9]+)?`. -/
def scanNumber (cs : List Char) : Scan String :=
  match (takeSign false cs).2 with
  | [] => .eof
  | c :: r =>
    if c = '0' then scanFrac ((takeSign false cs).1 ++ ['0']) r
    else if isDigit c then
      scanFrac ((takeSign false cs).1 ++ c :: (takeDigits r).1) (takeDigits r).2
    else .invalid

/-- The remaining letters `lit` of a literal name that stands for `v`. -/
def scanLiteral : List Char → Value → List Char → Scan Value
  | [], v, cs => .ok v cs
  | _ :: _, _, [] => .eof
  | l :: ls, v, c :: cs => if c = l then scanLiteral ls v cs else .invalid

mutual

/-- One value, after optional white space. -/
def scanValue : Nat → List Char → Scan Value
  | 0, _ => .invalid
  | n + 1, cs =>
    match skipSpace cs with
    | [] => .eof
    | c :: rest =>
      if c = '{' then
        match skipSpace rest with
        | [] => scanMembers n [] rest
        | d :: rest1 => if d = '}' then .ok (.object []) rest1 else scanMembers n [] rest
      else if c = '[' then
        match skipSpace rest with
        | [] => scanElems n [] rest
        | d :: rest1 => if d = ']' then .ok (.array []) rest1 else scanElems n [] rest
      else if c = '"' then
        match scanString (rest.length + 1) [] rest with
        | .ok s rest1 => .ok (.string s) rest1
        | .eof => .eof
        | .invalid => .invalid
      else if c = 't' then scanLiteral ['r', 'u', 'e'] (.bool true) rest
      else if c = 'f' then scanLiteral ['a', 'l', 's', 'e'] (.bool false) rest
      else if c = 'n' then scanLiteral ['u', 'l', 'l'] .null rest
      else if c = '-' || isDigit c then
        match scanNumber (c :: rest) with
        | .ok lit rest1 => .ok (.number lit) rest1
        | .eof => .eof
        | .invalid => .invalid
      else .invalid

/-- The elements of an array after `[` or `,`; `acc` holds the elements so far in
reverse. -/
def scanElems : Nat → List Value → List Char → Scan Value
  | 0, _, _ => .invalid
  | n + 1, acc, cs =>
    match scanValue n cs with
    | .ok v rest =>
      match skipSpace rest with
      | [] => .eof
      | d :: rest1 =>
        if d = ',' then scanElems n (v :: acc) rest1
        else if d = ']' then .ok (.array (v :: acc).reverse) rest1
        else .invalid
    | .eof => .eof
    | .invalid => .invalid

/-- The members of an object after `{` or `,`; `acc` holds the members so far in
reverse. -/
def scanMembers : Nat → List (String × Value) → List Char → Scan Value
  | 0, _, _ => .invalid
  | n + 1, acc, cs =>
    match skipSpace cs with
    | [] => .eof
    | q :: rest =>
      if q = '"' then
        match scanString (rest.length + 1) [] rest with
        | .ok k rest1 =>
          match skipSpace rest1 with
          | [] => .eof
          | d :: rest2 =>
            if d = ':' then
              match scanValue n rest2 with
              | .ok v rest3 =>
                match skipSpace rest3 with
                | [] => .eof
                | e :: rest4 =>
                  if e = ',' then scanMembers n ((k, v) :: acc) rest4
                  else if e = '}' then .ok (.object ((k, v) :: acc).reverse) rest4
                  else .invalid
              | .eof => .eof
              | .invalid => .invalid
            else .invalid
        | .eof => .eof
        | .invalid => .invalid
      else .invalid

end

/-- Fuel that lets the scanner read all of `cs`: every two calls consume a character. -/
def fuel (cs : List Char) : Nat := 2 * cs.length + 2

/-- Method `Decoder.readValue` on a fresh decoder over `body`: the first JSON value of the
stream.  After an array or an object nothing more is read; after any other value the next
byte is read and has to be white space or the end of the input. -/
def readValue (body : String) : Except Error Value :=
  match skipSpace body.data with
  | [] => .error .EOF
  | _ :: _ =>
    match scanValue (fuel body.data) body.data with
    | .eof => .error .ErrUnexpectedEOF
    | .invalid => .error (.SyntaxError "invalid character")
    | .ok (.array xs) _ => .ok (.array xs)
    | .ok (.object kvs) _ => .ok (.object kvs)
    | .ok v [] => .ok v
    | .ok v (d :: _) =>
      if isSpace d then .ok v else .error (.SyntaxError "invalid character after top-level value")

/-- Function `checkValid`, which `Unmarshal` runs first: the whole of `body` has to be one
JSON value with nothing but white space around it. -/
def checkValid (body : String) : Except Error Value :=
  match scanValue (fuel body.data) body.data with
  | .eof => .error (.SyntaxError "unexpected end of JSON input")
  | .invalid => .error (.SyntaxError "invalid character")
  | .ok v rest =>
    match skipSpace rest with
    | [] => .ok v
    | _ :: _ => .error (.SyntaxError "invalid character after top-level value")

/-- Method `(*Decoder).Decode` on `json.NewDecoder(body)`: the first value of the stream
is stored by `store`. -/
def Decode {T : Type} (store : Value → Except Error T) (body : String) : Except Error T :=
  match readValue body with
  | .ok v => store v
  | .error e => .error e

/-- Function `json.Unmarshal`: the body is checked as a whole, then stored by `store`. -/
def Unmarshal {T : Type} (store : Value → Except Error T) (body : String) : Except Error T :=
  match checkValid body with
  | .ok v => store v
  | .error e => .error e

/-! ### Storing a value in a Go type -/

/-- The value of a run of decimal digits. -/
def digitsVal (ds : List Char) : Nat := ds.foldl (fun acc c => acc * 10 + (c.toNat - 48)) 0

/-- Function `strconv.ParseInt(lit, 10, 64)` on a JSON number literal: an optional minus
sign and digits only, within the range of `int64`. -/
def parseInt64 (lit : String) : Option Int :=
  match lit.data with
  | '-' :: ds =>
    if ds.all isDigit && !ds.isEmpty && digitsVal ds ≤ 2 ^ 63 then some (-(digitsVal ds : Int))
    else none
  | ds =>
    if ds.all isDigit && !ds.isEmpty && digitsVal ds < 2 ^ 63 then some (digitsVal ds : Int)
    else none

/-- Store into an `int64` (or 64-bit `int`) that holds `old`; `null` leaves it as it is. -/
def storeInt64 (typ : String) (v : Value) (old : Int) : Except Error Int :=
  match v with
  | .null => .ok old
  | .number lit =>
    match parseInt64 lit with
    | some n => .ok n
    | none => .error (.UnmarshalTypeError ("number " ++ lit) typ)
  | v => .error (.UnmarshalTypeError v.kind typ)

/-- Store into a `string` that holds `old`; `null` leaves it as it is. -/
def storeString (v : Value) (old : String) : Except Error String :=
  match v with
  | .null => .ok old
  | .string s => .ok s
  | v => .error (.UnmarshalTypeError v.kind "string")

/-- Store into a slice `[]T`, given how an element is stored: an array element by
element, `null` as the nil slice, anything else is a type error. -/
def storeSlice {T : Type} (typ : String) (elem : Value → Except Error T) (v : Value) :
    Except Error (List T) :=
  match v with
  | .null => .ok []
  | .array xs => xs.mapM elem
  | v => .error (.UnmarshalTypeError v.kind typ)

/-- ASCII upper case of a character. -/
def upperASCII (c : Char) : Char :=
  if 97 ≤ c.toNat && c.toNat ≤ 122 then Char.ofNat (c.toNat - 32) else c

/-- A JSON object key selects the struct field named `name`: the names are equal up to
the case of ASCII letters. -/
def fieldMatch (name key : String) : Bool :=
  name.data.map upperASCII == key.data.map upperASCII

/-- Function `saveError`: the first error is kept. -/
def saveError (saved : Option Error) (e : Error) : Option Error :=
  match saved with
  | some e0 => some e0
  | none => some e

/-- The end of storing into a struct: the saved error, if any, is the result. -/
def finish {T : Type} (r : T × Option Error) : Except Error T :=
  match r.2 with
  | none => .ok r.1
  | some e => .error e

end json

/-! ## Response models -/

/-- One member of an object stored into a `BinanceError`. -/
def BinanceError.member (acc : BinanceError × Option Error) (kv : String × json.Value) :
    BinanceError × Option Error :=
  if json.fieldMatch "code" kv.1 then
    match json.storeInt64 "int" kv.2 acc.1.Code with
    | .ok n => ({ acc.1 with Code := n }, acc.2)
    | .error e => (acc.1, json.saveError acc.2 e)
  else if json.fieldMatch "msg" kv.1 then
    match json.storeString kv.2 acc.1.Msg with
    | .ok s => ({ acc.1 with Msg := s }, acc.2)
    | .error e => (acc.1, json.saveError acc.2 e)
  else acc

/-- Store a JSON value into a zero `BinanceError`. -/
def BinanceError.store (v : json.Value) : Except Error BinanceError :=
  match v with
  | .null => .ok ⟨0, ""⟩
  | .object kvs => json.finish (kvs.foldl BinanceError.member (⟨0, ""⟩, none))
  | v => .error (.UnmarshalTypeError v.kind "binance.BinanceError")

/-- Modelled from the spec: `ServerTimeResponse` is declared outside `cli.go`; the wire
format is a server-time object with a millisecond integer.  The field is an `int64`, as
`time.Unix(str.ServerTime/1000., 0)` type-checks for no other type. -/
structure ServerTimeResponse where
  ServerTime : Int
  deriving DecidableEq, Repr

/-- One member of an object stored into a `ServerTimeResponse`. -/
def ServerTimeResponse.member (acc : ServerTimeResponse × Option Error)
    (kv : String × json.Value) : ServerTimeResponse × Option Error :=
  if json.fieldMatch "serverTime" kv.1 then
    match json.storeInt64 "int64" kv.2 acc.1.ServerTime with
    | .ok n => (⟨n⟩, acc.2)
    | .error e => (acc.1, json.saveError acc.2 e)
  else acc

/-- Store a JSON value into a zero `ServerTimeResponse`. -/
def ServerTimeResponse.store (v : json.Value) : Except Error ServerTimeResponse :=
  match v with
  | .null => .ok ⟨0⟩
  | .object kvs => json.finish (kvs.foldl ServerTimeResponse.member (⟨0⟩, none))
  | v => .error (.UnmarshalTypeError v.kind "binance.ServerTimeResponse")

/-- Modelled from the spec: `CurrentAveragePriceResponse` is declared outside `cli.go`;
the wire format is an average-price object with a string-typed price field. -/
structure CurrentAveragePriceResponse where
  Price : String
  deriving DecidableEq, Repr

/-- One member of an object stored into a `CurrentAveragePriceResponse`. -/
def CurrentAveragePriceResponse.member (acc : CurrentAveragePriceResponse × Option Error)
    (kv : String × json.Value) : CurrentAveragePriceResponse × Option Error :=
  if json.fieldMatch "price" kv.1 then
    match json.storeString kv.2 acc.1.Price with
    | .ok s => (⟨s⟩, acc.2)
    | .error e => (acc.1, json.saveError acc.2 e)
  else acc

/-- Store a JSON value into a zero `CurrentAveragePriceResponse`. -/
def CurrentAveragePriceResponse.store (v : json.Value) :
    Except Error CurrentAveragePriceResponse :=
  match v with
  | .null => .ok ⟨""⟩
  | .object kvs => json.finish (kvs.foldl CurrentAveragePriceResponse.member (⟨""⟩, none))
  | v => .error (.UnmarshalTypeError v.kind "binance.CurrentAveragePriceResponse")

/-- Modelled from the spec: the response models of the trade list, the account snapshot,
the order list and the single order are declared outside `cli.go`.  Their record types
and the way `encoding/json` stores a JSON value into a zero record are parameters. -/
structure Models where
  Trade : Type
  OrderRecord : Type
  AccountResponse : Type
  OrderResponse : Type
  storeTrade : json.Value → Except Error Trade
  storeOrderRecord : json.Value → Except Error OrderRecord
  storeAccount : json.Value → Except Error AccountResponse
  storeOrder : json.Value → Except Error OrderResponse

/-- Modelled from the spec: `MyTradesResponse` is declared outside `cli.go`; the wire
format is an array of trade records, stored into the slice field `Trades`. -/
structure MyTradesResponse (m : Models) where
  Trades : List m.Trade

/-- Modelled from the spec: `AllOrdersResponse` is declared outside `cli.go`; the wire
format is an array of order records, stored into the slice field `Orders`. -/
structure AllOrdersResponse (m : Models) where
  Orders : List m.OrderRecord

/-! ## `net/http` -/

namespace http

def MethodGet : String := "GET"

def StatusOK : Int := 200

/-- Function `validHeaderFieldByte`: the token characters of RFC 7230. -/
def validHeaderFieldByte (c : Char) : Bool :=
  let n := c.toNat
  (48 ≤ n && n ≤ 57) || (65 ≤ n && n ≤ 90) || (97 ≤ n && n ≤ 122) ||
    [33, 35, 36, 37, 38, 39, 42, 43, 45, 46, 94, 95, 96, 124, 126].contains n

/-- The canonical case of a header key: a letter is upper case at the start and after a
hyphen, lower case elsewhere; `upper` tells which applies to the next character. -/
def canonicalCase : Bool → List Char → List Char
  | _, [] => []
  | upper, c :: cs =>
    let n := c.toNat
    let d : Char :=
      if upper && 97 ≤ n && n ≤ 122 then Char.ofNat (n - 32)
      else if !upper && 65 ≤ n && n ≤ 90 then Char.ofNat (n + 32)
      else c
    d :: canonicalCase (d = '-') cs

/-- Function `textproto.CanonicalMIMEHeaderKey`: a key with a character that is not a token
character is returned unchanged. -/
def CanonicalMIMEHeaderKey (s : String) : String :=
  if s.data.all validHeaderFieldByte then ⟨canonicalCase true s.data⟩ else s

/-- The type `http.Header`, a `map[string][]string`, as its list of entries. -/
structure Header where
  entries : List (String × List String)
  deriving DecidableEq, Repr

/-- Method `Header.Set`: the values under the canonical key are replaced by `value`. -/
def Header.Set (h : Header) (key value : String) : Header :=
  ⟨(CanonicalMIMEHeaderKey key, [value]) ::
    h.entries.filter (fun e => e.1 != CanonicalMIMEHeaderKey key)⟩

/-- Method `Header.Get`: the first value under the canonical key, `""` when there is
none. -/
def Header.Get (h : Header) (key : String) : String :=
  match h.entries.lookup (CanonicalMIMEHeaderKey key) with
  | some (v :: _) => v
  | _ => ""

/-- The fields of `http.Request` the client sets; there is no body. -/
structure Request where
  Method : String
  URL : url.URL
  Header : Header
  deriving DecidableEq, Repr

/-- What the client reads of an `http.Response`: the status code and the bytes of the
body.  A failure while the body is read is not modelled. -/
structure Response where
  StatusCode : Int
  Body : String
  deriving DecidableEq, Repr

/-- Function `http.NewRequest(method, url, nil)` for the method `GET`: the request, with
the parsed URL and no header, or `nil` (here `none`) when `url.Parse` rejects the URL. -/
def NewRequest (lib : Lib) (method : String) (url : String) : Option Request :=
  match lib.Parse url with
  | .ok u => some ⟨method, lib.removeEmptyPort u, ⟨[]⟩⟩
  | .error _ => none

end http

/-! ## `time` -/

namespace time

/-- An instant: seconds and nanoseconds since January 1, 1970 UTC. -/
structure Time where
  sec : Int
  nsec : Int
  deriving DecidableEq, Repr

/-- The zero value `time.Time{}`: January 1, year 1, 00:00:00 UTC. -/
def zero : Time := ⟨-62135596800, 0⟩

/-- Function `time.Unix(sec, nsec)`; `nsec` outside `[0, 999999999]` is carried over. -/
def Unix (sec nsec : Int) : Time :=
  if nsec < 0 ∨ nsec ≥ 1000000000 then
    let n := Int.tdiv nsec 1000000000
    if nsec - n * 1000000000 < 0 then ⟨sec + n - 1, nsec - n * 1000000000 + 1000000000⟩
    else ⟨sec + n, nsec - n * 1000000000⟩
  else ⟨sec, nsec⟩

end time

/-! ## `cli.go` -/

namespace binance

/-- The interface `RequestInterface`, declared outside `cli.go`: `createURL` calls its
method `EmbedData` on an empty `url.Values`; the method is given by the parameter set it
leaves there. -/
structure RequestInterface where
  EmbedData : url.Values → url.Values

/-- Modelled from the spec: the request models (`MyTradesRequest`, `AccountRequest`,
`AllOrdersRequest`, `OrderRequest`) are declared outside `cli.go`.  A request model is
given by what its two methods do: `Validate` returns `nil` (here `none`) or a validation
error, `EmbedData` embeds the parameters. -/
structure RequestModel extends RequestInterface where
  Validate : Option Error

abbrev MyTradesRequest := RequestModel

abbrev AccountRequest := RequestModel

abbrev AllOrdersRequest := RequestModel

abbrev OrderRequest := RequestModel

/-- The HTTP client `h` is given by what `h.Do` answers to a request: a response, or a
transport error. -/
structure Client where
  h : http.Request → Except Error http.Response
  base : String
  apiKey : String
  secretKey : List Nat

def NewBinance (h : http.Request → Except Error http.Response) (base : String)
    (apiKey : String) (secretKey : List Nat) : Client :=
  { h := h, base := base, apiKey := apiKey, secretKey := secretKey }

def apiKeyHeader : String := "X-MBX-APIKEY"

def pingPath : String := "api/v3/ping"

def exchangeInfoPath : String := "api/v3/exchangeInfo"

def myTradesPath : String := "api/v3/myTrades"

def accountPath : String := "api/v3/account"

def allOrdersPath : String := "api/v3/allOrders"

def currentAveragePricePath : String := "api/v3/avgPrice"

def timeCheckPath : String := "api/v3/time"

def orderPath : String := "api/v3/order"

/-- How a call of an operation ends: it returns, or it panics on a nil pointer. -/
inductive Outcome (α : Type)
  | returned (v : α)
  | panicked

/-- A call of an operation: the requests handed to `c.h.Do`, in order, and how the call
ends.  What the operation prints is not part of it. -/
structure Run (α : Type) where
  calls : List http.Request
  out : Outcome α

/-- Method `createURL`: the string it returns, and the URL `parsedURL` points to
afterwards. -/
def Client.createURL (c : Client) (req : RequestInterface) (parsedURL : url.URL) :
    String × url.URL :=
  let q := req.EmbedData url.Values.empty
  let sha := hex.EncodeToString (hmac.Sum c.secretKey (bytes q.Encode))
  let parsedURL := { parsedURL with RawQuery := q.Encode ++ "&signature=" ++ sha }
  (parsedURL.String, parsedURL)

/-- Function `parseError`. -/
def parseError (b : String) : Error :=
  match json.Unmarshal BinanceError.store b with
  | .error err => err
  | .ok bErr => .Binance bErr

/-- Method `MyTrades`: returns list of completed trades. -/
def Client.MyTrades (lib : Lib) (m : Models) (c : Client) (req : MyTradesRequest) :
    Run (Option (MyTradesResponse m) × Option Error) :=
  match req.Validate with
  | some err => ⟨[], .returned (none, some err)⟩
  | none =>
    match lib.Parse (c.base ++ "/" ++ myTradesPath) with
    | .error err => ⟨[], .returned (none, some err)⟩
    | .ok parsedURL =>
      match http.NewRequest lib http.MethodGet
          (c.createURL req.toRequestInterface parsedURL).1 with
      | none => ⟨[], .panicked⟩
      | some r0 =>
        let r := { r0 with Header := r0.Header.Set apiKeyHeader c.apiKey }
        match c.h r with
        | .error err => ⟨[r], .returned (none, some err)⟩
        | .ok resp =>
          match json.Decode (json.storeSlice "[]binance.Trade" m.storeTrade) resp.Body with
          | .error err => ⟨[r], .returned (none, some err)⟩
          | .ok trades => ⟨[r], .returned (some ⟨trades⟩, none)⟩

/-- Method `Account`.  The second call of `createURL` only feeds `Println`. -/
def Client.Account (lib : Lib) (m : Models) (c : Client) (req : AccountRequest) :
    Run (Option m.AccountResponse × Option Error) :=
  match req.Validate with
  | some err => ⟨[], .returned (none, some err)⟩
  | none =>
    match lib.Parse (c.base ++ "/" ++ accountPath) with
    | .error err => ⟨[], .returned (none, some err)⟩
    | .ok parsedURL =>
      match http.NewRequest lib http.MethodGet
          (c.createURL req.toRequestInterface parsedURL).1 with
      | none => ⟨[], .panicked⟩
      | some r0 =>
        let r := { r0 with Header := r0.Header.Set apiKeyHeader c.apiKey }
        match c.h r with
        | .error err => ⟨[r], .returned (none, some err)⟩
        | .ok resp =>
          if resp.StatusCode ≠ http.StatusOK then ⟨[r], .returned (none, some (parseError resp.Body))⟩
          else
            match json.Unmarshal m.storeAccount resp.Body with
            | .error err => ⟨[r], .returned (none, some err)⟩
            | .ok trades => ⟨[r], .returned (some trades, none)⟩

/-- Method `GetServerTime`.  `Do` dereferences the request, so a nil request panics. -/
def Client.GetServerTime (lib : Lib) (c : Client) : Run (time.Time × Option Error) :=
  match lib.Parse (c.base ++ "/" ++ timeCheckPath) with
  | .error err => ⟨[], .returned (time.zero, some err)⟩
  | .ok parsedURL =>
    match http.NewRequest lib http.MethodGet parsedURL.String with
    | none => ⟨[], .panicked⟩
    | some r =>
      match c.h r with
      | .error err => ⟨[r], .returned (time.zero, some err)⟩
      | .ok resp =>
        match json.Decode ServerTimeResponse.store resp.Body with
        | .error err => ⟨[r], .returned (time.zero, some err)⟩
        | .ok str => ⟨[r], .returned (time.Unix (Int.tdiv str.ServerTime 1000) 0, none)⟩

/-- Method `AllOrderList`. -/
def Client.AllOrderList (lib : Lib) (m : Models) (c : Client) (req : AllOrdersRequest) :
    Run (Option (AllOrdersResponse m) × Option Error) :=
  match req.Validate with
  | some err => ⟨[], .returned (none, some err)⟩
  | none =>
    match lib.Parse (c.base ++ "/" ++ allOrdersPath) with
    | .error err => ⟨[], .returned (none, some err)⟩
    | .ok parsedURL =>
      match http.NewRequest lib http.MethodGet
          (c.createURL req.toRequestInterface parsedURL).1 with
      | none => ⟨[], .panicked⟩
      | some r0 =>
        let r := { r0 with Header := r0.Header.Set apiKeyHeader c.apiKey }
        match c.h r with
        | .error err => ⟨[r], .returned (none, some err)⟩
        | .ok resp =>
          match json.Decode (json.storeSlice "[]binance.Order" m.storeOrderRecord) resp.Body with
          | .error err => ⟨[r], .returned (none, some err)⟩
          | .ok orders => ⟨[r], .returned (some ⟨orders⟩, none)⟩

/-- Method `CurrentAveragePrice`. -/
def Client.CurrentAveragePrice (lib : Lib) (c : Client) (symbol : String) :
    Run (lib.float64 × Option Error) :=
  match lib.Parse (c.base ++ "/" ++ currentAveragePricePath) with
  | .error err => ⟨[], .returned (lib.zero, some err)⟩
  | .ok parsedURL =>
    match http.NewRequest lib http.MethodGet (parsedURL.String ++ ("?symbol=" ++ symbol)) with
    | none => ⟨[], .panicked⟩
    | some r0 =>
      let r := { r0 with Header := r0.Header.Set apiKeyHeader c.apiKey }
      match c.h r with
      | .error err => ⟨[r], .returned (lib.zero, some err)⟩
      | .ok resp =>
        match json.Decode CurrentAveragePriceResponse.store resp.Body with
        | .error err => ⟨[r], .returned (lib.zero, some err)⟩
        | .ok capResp =>
          match lib.ParseFloat capResp.Price with
          | .error err => ⟨[r], .returned (lib.zero, some err)⟩
          | .ok fl => ⟨[r], .returned (fl, none)⟩

/-- Method `SymbolTickerPrice`. -/
def Client.SymbolTickerPrice (lib : Lib) (c : Client) (symbol : String) :
    Run (lib.float64 × Option Error) :=
  match lib.Parse (c.base ++ "/" ++ currentAveragePricePath) with
  | .error err => ⟨[], .returned (lib.zero, some err)⟩
  | .ok parsedURL =>
    match http.NewRequest lib http.MethodGet (parsedURL.String ++ ("?symbol=" ++ symbol)) with
    | none => ⟨[], .panicked⟩
    | some r0 =>
      let r := { r0 with Header := r0.Header.Set apiKeyHeader c.apiKey }
      match c.h r with
      | .error err => ⟨[r], .returned (lib.zero, some err)⟩
      | .ok resp =>
        match json.Unmarshal CurrentAveragePriceResponse.store resp.Body with
        | .error err => ⟨[r], .returned (lib.zero, some err)⟩
        | .ok capResp =>
          if resp.StatusCode ≠ http.StatusOK then ⟨[r], .returned (lib.zero, some (parseError resp.Body))⟩
          else
            match lib.ParseFloat capResp.Price with
            | .error err => ⟨[r], .returned (lib.zero, some err)⟩
            | .ok fl => ⟨[r], .returned (fl, none)⟩

/-- Method `Order`.  The URL is created once for printing and once more, on the URL the
first call left, for the request. -/
def Client.Order (lib : Lib) (m : Models) (c : Client) (req : OrderRequest) :
    Run (Option m.OrderResponse × Option Error) :=
  match lib.Parse (c.base ++ "/" ++ orderPath) with
  | .error err => ⟨[], .returned (none, some err)⟩
  | .ok parsedURL =>
    match http.NewRequest lib http.MethodGet
        (c.createURL req.toRequestInterface (c.createURL req.toRequestInterface parsedURL).2).1 with
    | none => ⟨[], .panicked⟩
    | some r0 =>
      let r := { r0 with Header := r0.Header.Set apiKeyHeader c.apiKey }
      match c.h r with
      | .error err => ⟨[r], .returned (none, some err)⟩
      | .ok resp =>
        if resp.StatusCode ≠ http.StatusOK then ⟨[r], .returned (none, some (parseError resp.Body))⟩
        else
          match json.Unmarshal m.storeOrder resp.Body with
          | .error err => ⟨[r], .returned (none, some err)⟩
          | .ok order => ⟨[r], .returned (some order, none)⟩

end binance

/-! ## Fixtures

Concrete collaborators for the scenarios of the spec: a parser for plain URLs, the
request fields of the spec, record types, and a client whose transport gives one fixed
answer. -/

namespace fixture

/-- The part of `cs` before the first `sep`, and the part after it when there is one. -/
def cut (sep : Char) : List Char → List Char × Option (List Char)
  | [] => ([], none)
  | c :: cs => if c = sep then ([], some cs) else ((c :: (cut sep cs).1), (cut sep cs).2)

/-- What `url.Parse` does on a plain URL (`scheme://host/path?query#fragment` with a lower
case scheme and no character that needs escaping): a control character is rejected (the
error names the cause only), the fragment follows the first `#`, the query follows the
first `?` before it, and the query is forced when that `?` is the last character. -/
def Parse (rawURL : String) : Except Error url.URL :=
  if rawURL.data.any (fun c => c.toNat < 0x20 || c.toNat = 0x7f) then
    .error (.errorString "net/url: invalid control character in URL")
  else
    let f := cut '#' rawURL.data
    let q := cut '?' f.1
    .ok ⟨⟨q.1⟩, q.2 == some [], ⟨q.2.getD []⟩, ⟨f.2.getD []⟩⟩

/-- A decimal literal: digits, optionally followed by a point and digits. -/
def isDecimal (cs : List Char) : Bool :=
  let i := json.takeDigits cs
  !i.1.isEmpty &&
    (match i.2 with
     | [] => true
     | '.' :: r => !(json.takeDigits r).1.isEmpty && (json.takeDigits r).2.isEmpty
     | _ => false)

/-- The library with `Parse` for `url.Parse`; a plain URL has no empty port to remove; a
`float64` is represented by a decimal literal that denotes it, and only such literals
are parsed. -/
def lib : Lib :=
  { Parse := Parse
    removeEmptyPort := fun u => u
    float64 := String
    zero := "0"
    ParseFloat := fun s =>
      if isDecimal s.data then .ok s
      else .error (.errorString "strconv.ParseFloat: parsing: invalid syntax") }

/-- A record whose fields are not constrained: the members of the JSON object. -/
structure Record where
  members : List (String × json.Value)

/-- Store a JSON value into a zero `Record`. -/
def Record.store (v : json.Value) : Except Error Record :=
  match v with
  | .null => .ok ⟨[]⟩
  | .object kvs => .ok ⟨kvs⟩
  | v => .error (.UnmarshalTypeError v.kind "binance.Record")

def models : Models :=
  { Trade := Record
    OrderRecord := Record
    AccountResponse := Record
    OrderResponse := Record
    storeTrade := Record.store
    storeOrderRecord := Record.store
    storeAccount := Record.store
    storeOrder := Record.store }

/-- Modelled from the spec: the fields of a request model (section 3): a symbol, an
optional `recvWindow` and the mandatory `timestamp`, both in milliseconds and carried as
decimal strings. -/
structure Fields where
  Symbol : String
  RecvWindow : Option Nat
  Timestamp : Option Nat

/-- Modelled from the spec: validation (section 4.1): a mandatory symbol is not empty,
the timestamp is present, and `recvWindow`, if set, satisfies `0 < recvWindow <= 60000`. -/
def Fields.Validate (needsSymbol : Bool) (f : Fields) : Option Error :=
  if needsSymbol && f.Symbol = "" then some (.errorString "symbol is mandatory")
  else
    match f.Timestamp, f.RecvWindow with
    | none, _ => some (.errorString "timestamp is mandatory")
    | some _, none => none
    | some _, some w =>
      if 0 < w ∧ w ≤ 60000 then none
      else some (.errorString "recvWindow must be greater than 0 and not greater than 60000")

/-- Modelled from the spec: the parameter encoder (section 4.2): exactly the fields that
are present, as decimal strings. -/
def Fields.EmbedData (f : Fields) (q : url.Values) : url.Values :=
  let q1 := if f.Symbol = "" then q else q.Set "symbol" f.Symbol
  let q2 :=
    match f.RecvWindow with
    | some w => q1.Set "recvWindow" (toString w)
    | none => q1
  match f.Timestamp with
  | some t => q2.Set "timestamp" (toString t)
  | none => q2

/-- The request model with fields `f`. -/
def request (needsSymbol : Bool) (f : Fields) : binance.RequestModel :=
  { EmbedData := f.EmbedData, Validate := f.Validate needsSymbol }

/-- A client whose transport answers every request with `answer`. -/
def client (answer : Except Error http.Response) : binance.Client :=
  binance.NewBinance (fun _ => answer) "https://api.binance.com" "vmPUZE6mv9SD5VNHk4HlWFsOr6aKE2zv"
    (bytes "NhqPtmdSJYdKjVHjA7PZj4Mge3R5YNiP1e3UZjInClVN65XAbvqqM6A7H5fATj0j")

end fixture

namespace fixture

/-- A valid request for the trades (or orders) of `BTCUSDT`. -/
def symbolRequest : binance.RequestModel :=
  request true ⟨"BTCUSDT", some 5000, some 1499827319559⟩

/-- An account request with the given `recvWindow`. -/
def accountRequest (recvWindow : Nat) : binance.RequestModel :=
  request false ⟨"", some recvWindow, some 1499827319559⟩

/-- An order request without its mandatory symbol. -/
def orderRequestNoSymbol : binance.RequestModel :=
  request true ⟨"", none, some 1499827319559⟩

/-- The request an operation hands to the transport of `client`: `GET` on the endpoint
`path` with raw query `query` and the API key header. -/
def sent (path query : String) : http.Request :=
  { Method := "GET"
    URL := ⟨"https://api.binance.com/" ++ path, false, query, ""⟩
    Header := ⟨[("X-Mbx-Apikey", ["vmPUZE6mv9SD5VNHk4HlWFsOr6aKE2zv"])]⟩ }

/-- The body of the exchange error of the spec: code -1021. -/
def timestampErrorBody : String :=
  "\x7b\"code\":-1021,\"msg\":\"Timestamp for this request is outside of the recvWindow.\"\x7d"

end fixture

/-! ## Lemmas: digest and hexadecimal encoding -/

theorem sha256.length_beBytes (n x : Nat) : (sha256.beBytes n x).length = n := by
  induction n with
  | zero => rfl
  | succ k ih => simp [sha256.beBytes, ih]

theorem sha256.length_digest (s : sha256.State) : (sha256.digest s).length = 32 := by
  simp [sha256.digest, sha256.length_beBytes]

theorem sha256.length_Sum256 (msg : List Nat) : (sha256.Sum256 msg).length = 32 := by
  simp [sha256.Sum256, sha256.length_digest]

theorem hmac.length_Sum (key msg : List Nat) : (hmac.Sum key msg).length = 32 := by
  simp [hmac.Sum, sha256.length_Sum256]

theorem hex.getD_mem_hextable (i : Nat) : hex.hextable.getD i '0' ∈ hex.hextable := by
  by_cases h : i < 16
  · interval_cases i <;> decide
  · rw [List.getD_eq_default _ _ (by simpa [hex.hextable] using h)]
    decide

theorem hex.length_EncodeToString (src : List Nat) :
    (hex.EncodeToString src).length = 2 * src.length := by
  induction src with
  | nil => rfl
  | cons b bs ih =>
    simp only [hex.EncodeToString, String.length, List.flatMap_cons, List.length_append,
      List.length_cons] at ih ⊢
    simp only [hex.encodeByte, List.length_cons, List.length_nil]
    omega

theorem hex.mem_EncodeToString (src : List Nat) (ch : Char)
    (h : ch ∈ (hex.EncodeToString src).data) : ch ∈ hex.hextable := by
  simp only [hex.EncodeToString, List.mem_flatMap, hex.encodeByte, List.mem_cons,
    List.mem_singleton, List.not_mem_nil, or_false] at h
  obtain ⟨b, _, hb | hb⟩ := h <;> rw [hb] <;> exact hex.getD_mem_hextable _

/-! ## Lemmas: the key order and the canonical encoding -/

theorem url.leChars_total (a b : List Char) : url.leChars a b = true ∨ url.leChars b a = true := by
  induction a generalizing b with
  | nil => left; rfl
  | cons x xs ih =>
    cases b with
    | nil => right; rfl
    | cons y ys =>
      simp only [url.leChars]
      by_cases h1 : x.toNat < y.toNat
      · simp [h1]
      · by_cases h2 : y.toNat < x.toNat
        · simp [h2]
        · simpa [h1, h2] using ih ys

theorem url.leChars_trans (a b c : List Char) (hab : url.leChars a b = true)
    (hbc : url.leChars b c = true) : url.leChars a c = true := by
  induction a generalizing b c with
  | nil => rfl
  | cons x xs ih =>
    cases b with
    | nil => simp [url.leChars] at hab
    | cons y ys =>
      cases c with
      | nil => simp [url.leChars] at hbc
      | cons z zs =>
        simp only [url.leChars] at hab hbc ⊢
        by_cases h1 : x.toNat < y.toNat
        · by_cases h2 : y.toNat < z.toNat
          · have : x.toNat < z.toNat := by omega
            simp [this]
          · by_cases h3 : z.toNat < y.toNat
            · simp [h2, h3] at hbc
            · have : x.toNat < z.toNat := by omega
              simp [this]
        · by_cases h1b : y.toNat < x.toNat
          · simp [h1, h1b] at hab
          · simp only [h1, h1b, if_false] at hab
            by_cases h2 : y.toNat < z.toNat
            · have : x.toNat < z.toNat := by omega
              simp [this]
            · by_cases h3 : z.toNat < y.toNat
              · simp [h2, h3] at hbc
              · simp only [h2, h3, if_false] at hbc
                have e1 : ¬ x.toNat < z.toNat := by omega
                have e2 : ¬ z.toNat < x.toNat := by omega
                simp only [e1, e2, if_false]
                exact ih ys zs hab hbc

theorem url.leChars_antisymm (a b : List Char) (hab : url.leChars a b = true)
    (hba : url.leChars b a = true) : a = b := by
  induction a generalizing b with
  | nil =>
    cases b with
    | nil => rfl
    | cons y ys => simp [url.leChars] at hba
  | cons x xs ih =>
    cases b with
    | nil => simp [url.leChars] at hab
    | cons y ys =>
      simp only [url.leChars] at hab hba
      by_cases h1 : x.toNat < y.toNat
      · have h2 : ¬ y.toNat < x.toNat := by omega
        simp [h1, h2] at hba
      · by_cases h2 : y.toNat < x.toNat
        · simp [h1, h2] at hab
        · simp only [h1, h2, if_false] at hab hba
          have hxy : x = y := by
            have := congrArg Char.ofNat (show x.toNat = y.toNat by omega)
            simpa using this
          rw [hxy, ih ys hab hba]

/-- In a list of entries with distinct keys, the entry found under a key does not depend
on the order of the entries. -/
theorem url.lookup_perm (k : String) {l₁ l₂ : List (String × List String)} (p : l₁.Perm l₂)
    (nd : (l₁.map Prod.fst).Nodup) : l₁.lookup k = l₂.lookup k := by
  induction p with
  | nil => rfl
  | cons x _ ih =>
    obtain ⟨a, b⟩ := x
    simp only [List.map_cons, List.nodup_cons] at nd
    simp only [List.lookup_cons]
    rw [ih nd.2]
  | swap x y l =>
    obtain ⟨a, b⟩ := x
    obtain ⟨a', b'⟩ := y
    simp only [List.map_cons, List.nodup_cons, List.mem_cons, not_or] at nd
    simp only [List.lookup_cons]
    cases hka : (k == a) <;> cases hka' : (k == a') <;> simp only []
    exact absurd ((eq_of_beq hka').symm.trans (eq_of_beq hka)) nd.1.1
  | trans p₁ _ ih₁ ih₂ =>
    rw [ih₁ nd, ih₂ ((p₁.map Prod.fst).nodup_iff.mp nd)]

/-- The encoding is canonical: it does not depend on the iteration order of the map. -/
theorem url.Encode_perm (v₁ v₂ : url.Values) (p : v₁.entries.Perm v₂.entries)
    (nd : v₁.keys.Nodup) : v₁.Encode = v₂.Encode := by
  have hget : ∀ k, v₁.get k = v₂.get k := fun k => by
    simp only [url.Values.get, url.lookup_perm k p nd]
  have hkeys : List.insertionSort url.KeyLE v₁.keys = List.insertionSort url.KeyLE v₂.keys := by
    have anti : IsAntisymm String url.KeyLE :=
      ⟨fun a b hab hba => String.ext (url.leChars_antisymm a.data b.data hab hba)⟩
    have total : IsTotal String url.KeyLE := ⟨fun a b => url.leChars_total a.data b.data⟩
    have trans : IsTrans String url.KeyLE :=
      ⟨fun a b c => url.leChars_trans a.data b.data c.data⟩
    apply List.eq_of_perm_of_sorted (r := url.KeyLE)
    · exact ((List.perm_insertionSort _ _).trans (p.map Prod.fst)).trans
        (List.perm_insertionSort _ _).symm
    · exact List.sorted_insertionSort _ _
    · exact List.sorted_insertionSort _ _
  simp only [url.Values.Encode, p.length_eq, hkeys, hget]

/-! ## Lemmas: the scanner has fuel enough -/

namespace json

theorem length_skipSpace (cs : List Char) : (skipSpace cs).length ≤ cs.length := by
  induction cs with
  | nil => simp [skipSpace]
  | cons c cs ih =>
    simp only [skipSpace]
    split
    · simp only [List.length_cons]; omega
    · simp

theorem length_of_skipSpace_cons {cs rest : List Char} {c : Char}
    (h : skipSpace cs = c :: rest) : rest.length < cs.length := by
  have := length_skipSpace cs
  rw [h] at this
  simp only [List.length_cons] at this
  omega

theorem length_scanHex4 {cs rest : List Char} {u : Nat} (h : scanHex4 cs = .ok u rest) :
    rest.length + 4 = cs.length := by
  unfold scanHex4 at h
  split at h
  · split at h
    · injection h with _ h
      subst h
      simp
    · cases h
  · split at h <;> cases h

theorem length_decodeEscape (u : Nat) (rest : List Char) :
    (decodeEscape u rest).2.length ≤ rest.length := by
  unfold decodeEscape
  split
  · split
    · split
      · split
        · rename_i h
          have := length_scanHex4 h
          split
          · simp only [List.length_cons]; omega
          · simp
        · simp
      · simp
    · simp
  · simp

theorem length_scanString (n : Nat) (acc cs : List Char) (s : String) (rest : List Char)
    (h : scanString n acc cs = .ok s rest) : rest.length < cs.length := by
  induction n generalizing acc cs with
  | zero => simp [scanString] at h
  | succ n ih =>
    cases cs with
    | nil => simp [scanString] at h
    | cons c cs =>
      simp only [scanString] at h
      split at h
      · injection h with _ h
        subst h
        simp
      · split at h
        · split at h
          · cases h
          · split at h
            · split at h
              · rename_i u rest2 hx
                have h1 := ih _ _ h
                have h2 := length_decodeEscape u rest2
                have h3 := length_scanHex4 hx
                simp only [List.length_cons]
                omega
              · cases h
              · cases h
            · split at h
              · have h1 := ih _ _ h
                simp only [List.length_cons]
                omega
              · cases h
        · split at h
          · cases h
          · have h1 := ih _ _ h
            simp only [List.length_cons]
            omega

theorem scanString_fuel (n m : Nat) (acc cs : List Char) (hn : cs.length < n)
    (hm : cs.length < m) : scanString n acc cs = scanString m acc cs := by
  induction n generalizing m acc cs with
  | zero => omega
  | succ n ih =>
    cases m with
    | zero => omega
    | succ m =>
      cases cs with
      | nil => simp [scanString]
      | cons c cs =>
        simp only [List.length_cons] at hn hm
        simp only [scanString]
        split
        · rfl
        · split
          · split
            · rfl
            · split
              · split
                · rename_i u rest2 hx
                  have h2 := length_decodeEscape u rest2
                  have h3 := length_scanHex4 hx
                  simp only [List.length_cons] at hn hm
                  exact ih _ _ _ (by omega) (by omega)
                · rfl
                · rfl
              · split
                · simp only [List.length_cons] at hn hm
                  exact ih _ _ _ (by omega) (by omega)
                · rfl
          · split
            · rfl
            · exact ih _ _ _ (by omega) (by omega)

theorem length_takeDigits (cs : List Char) : (takeDigits cs).2.length ≤ cs.length := by
  induction cs with
  | nil => simp [takeDigits]
  | cons c cs ih =>
    simp only [takeDigits]
    split
    · simp only [List.length_cons]; omega
    · simp

theorem length_takeSign (plus : Bool) (cs : List Char) :
    (takeSign plus cs).2.length ≤ cs.length := by
  cases cs with
  | nil => simp [takeSign]
  | cons c r =>
    simp only [takeSign]
    split <;> simp

theorem length_scanExp (acc cs : List Char) (lit : String) (rest : List Char)
    (h : scanExp acc cs = .ok lit rest) : rest.length ≤ cs.length := by
  cases cs with
  | nil =>
    simp only [scanExp] at h
    injection h with _ h
    subst h
    simp
  | cons e r =>
    simp only [scanExp] at h
    split at h
    · split at h
      · cases h
      · cases h
      · rename_i hd hr
        injection h with _ h
        subst h
        have h1 := length_takeDigits (takeSign true r).2
        have h2 := length_takeSign true r
        simp only [List.length_cons]
        omega
    · injection h with _ h
      subst h
      simp

theorem length_scanFrac (acc cs : List Char) (lit : String) (rest : List Char)
    (h : scanFrac acc cs = .ok lit rest) : rest.length ≤ cs.length := by
  cases cs with
  | nil =>
    simp only [scanFrac] at h
    exact length_scanExp _ _ _ _ h
  | cons c r =>
    simp only [scanFrac] at h
    split at h
    · split at h
      · cases h
      · cases h
      · rename_i hd hr
        have h1 := length_takeDigits r
        have h2 := length_scanExp _ _ _ _ h
        simp only [List.length_cons]
        omega
    · exact length_scanExp _ _ _ _ h

theorem length_scanNumber (cs : List Char) (lit : String) (rest : List Char)
    (h : scanNumber cs = .ok lit rest) : rest.length < cs.length := by
  unfold scanNumber at h
  have hs := length_takeSign false cs
  split at h
  · cases h
  · rename_i c r heq
    rw [heq] at hs
    simp only [List.length_cons] at hs
    split at h
    · have := length_scanFrac _ _ _ _ h
      omega
    · split at h
      · have h1 := length_scanFrac _ _ _ _ h
        have h2 := length_takeDigits r
        omega
      · cases h

theorem length_scanLiteral (lit : List Char) (v : Value) (cs : List Char) (w : Value)
    (rest : List Char) (h : scanLiteral lit v cs = .ok w rest) : rest.length ≤ cs.length := by
  induction lit generalizing cs with
  | nil =>
    simp only [scanLiteral] at h
    injection h with _ h
    subst h
    exact Nat.le_refl _
  | cons l ls ih =>
    cases cs with
    | nil => simp [scanLiteral] at h
    | cons c cs =>
      simp only [scanLiteral] at h
      split at h
      · have := ih _ h
        simp only [List.length_cons]
        omega
      · cases h

/-- A value that is scanned leaves less input than there was. -/
theorem length_scan (n : Nat) :
    (∀ cs v rest, scanValue n cs = .ok v rest → rest.length < cs.length)
    ∧ (∀ acc cs v rest, scanElems n acc cs = .ok v rest → rest.length < cs.length)
    ∧ (∀ acc cs v rest, scanMembers n acc cs = .ok v rest → rest.length < cs.length) := by
  induction n with
  | zero =>
    refine ⟨?_, ?_, ?_⟩ <;> intros <;> simp_all [scanValue, scanElems, scanMembers]
  | succ n ih =>
    obtain ⟨ihV, ihE, ihM⟩ := ih
    refine ⟨?_, ?_, ?_⟩
    · intro cs v rest h
      simp only [scanValue] at h
      split at h
      · cases h
      · rename_i c r hsk
        have h0 := length_of_skipSpace_cons hsk
        split at h
        · split at h
          · have := ihM _ _ _ _ h
            omega
          · rename_i d r1 hsk1
            have h1 := length_of_skipSpace_cons hsk1
            split at h
            · injection h with _ h
              subst h
              omega
            · have := ihM _ _ _ _ h
              omega
        · split at h
          · split at h
            · have := ihE _ _ _ _ h
              omega
            · rename_i d r1 hsk1
              have h1 := length_of_skipSpace_cons hsk1
              split at h
              · injection h with _ h
                subst h
                omega
              · have := ihE _ _ _ _ h
                omega
          · split at h
            · split at h
              · rename_i hs
                have := length_scanString _ _ _ _ _ hs
                injection h with _ h
                subst h
                omega
              · cases h
              · cases h
            · split at h
              · have := length_scanLiteral _ _ _ _ _ h
                omega
              · split at h
                · have := length_scanLiteral _ _ _ _ _ h
                  omega
                · split at h
                  · have := length_scanLiteral _ _ _ _ _ h
                    omega
                  · split at h
                    · split at h
                      · rename_i hs
                        have := length_scanNumber _ _ _ hs
                        injection h with _ h
                        subst h
                        simp only [List.length_cons] at this
                        omega
                      · cases h
                      · cases h
                    · cases h
    · intro acc cs v rest h
      simp only [scanElems] at h
      split at h
      · rename_i w r hv
        have h0 := ihV _ _ _ hv
        split at h
        · cases h
        · rename_i d r1 hsk
          have h1 := length_of_skipSpace_cons hsk
          split at h
          · have := ihE _ _ _ _ h
            omega
          · split at h
            · injection h with _ h
              subst h
              omega
            · cases h
      · cases h
      · cases h
    · intro acc cs v rest h
      simp only [scanMembers] at h
      split at h
      · cases h
      · rename_i q r hsk
        have h0 := length_of_skipSpace_cons hsk
        split at h
        · split at h
          · rename_i k r1 hs
            have h1 := length_scanString _ _ _ _ _ hs
            split at h
            · cases h
            · rename_i d r2 hsk2
              have h2 := length_of_skipSpace_cons hsk2
              split at h
              · split at h
                · rename_i w r3 hv
                  have h3 := ihV _ _ _ hv
                  split at h
                  · cases h
                  · rename_i e r4 hsk4
                    have h4 := length_of_skipSpace_cons hsk4
                    split at h
                    · have := ihM _ _ _ _ h
                      omega
                    · split at h
                      · injection h with _ h
                        subst h
                        omega
                      · cases h
                · cases h
                · cases h
              · cases h
          · cases h
          · cases h
        · cases h

/-- Above two units of fuel per character the result of scanning does not depend on the
fuel. -/
theorem fuel_scan (n : Nat) :
    (∀ cs m, 2 * cs.length + 2 ≤ n → 2 * cs.length + 2 ≤ m →
        scanValue n cs = scanValue m cs)
    ∧ (∀ acc cs m, 2 * cs.length + 3 ≤ n → 2 * cs.length + 3 ≤ m →
        scanElems n acc cs = scanElems m acc cs)
    ∧ (∀ acc cs m, 2 * cs.length + 3 ≤ n → 2 * cs.length + 3 ≤ m →
        scanMembers n acc cs = scanMembers m acc cs) := by
  induction n with
  | zero => refine ⟨?_, ?_, ?_⟩ <;> intros <;> omega
  | succ n ih =>
    obtain ⟨ihV, ihE, ihM⟩ := ih
    refine ⟨?_, ?_, ?_⟩
    · intro cs m hn hm
      cases m with
      | zero => omega
      | succ m =>
        simp only [scanValue]
        split
        · rfl
        · rename_i c r hsk
          have h0 := length_of_skipSpace_cons hsk
          split
          · split
            · exact ihM _ _ _ (by omega) (by omega)
            · split
              · rfl
              · exact ihM _ _ _ (by omega) (by omega)
          · split
            · split
              · exact ihE _ _ _ (by omega) (by omega)
              · split
                · rfl
                · exact ihE _ _ _ (by omega) (by omega)
            · rfl
    · intro acc cs m hn hm
      cases m with
      | zero => omega
      | succ m =>
        simp only [scanElems]
        rw [ihV cs m (by omega) (by omega)]
        split
        · rename_i w r hv
          have h0 := (length_scan m).1 _ _ _ hv
          split
          · rfl
          · rename_i d r1 hsk
            have h1 := length_of_skipSpace_cons hsk
            split
            · exact ihE _ _ _ (by omega) (by omega)
            · rfl
        · rfl
        · rfl
    · intro acc cs m hn hm
      cases m with
      | zero => omega
      | succ m =>
        simp only [scanMembers]
        split
        · rfl
        · rename_i q r hsk
          have h0 := length_of_skipSpace_cons hsk
          split
          · split
            · rename_i k r1 hs
              have h1 := length_scanString _ _ _ _ _ hs
              split
              · rfl
              · rename_i d r2 hsk2
                have h2 := length_of_skipSpace_cons hsk2
                split
                · rw [ihV r2 m (by omega) (by omega)]
                  split
                  · rename_i w r3 hv
                    have h3 := (length_scan m).1 _ _ _ hv
                    split
                    · rfl
                    · rename_i e r4 hsk4
                      have h4 := length_of_skipSpace_cons hsk4
                      split
                      · exact ihM _ _ _ (by omega) (by omega)
                      · rfl
                  · rfl
                  · rfl
                · rfl
            · rfl
            · rfl
          · rfl

/-- The fuel `readValue` and `checkValid` give the scanner is enough: more fuel gives the
same result. -/
theorem scanValue_fuel (cs : List Char) (m : Nat) (h : fuel cs ≤ m) :
    scanValue m cs = scanValue (fuel cs) cs :=
  ((fuel_scan m).1 cs (fuel cs) h (Nat.le_refl _))

end json

/-! ## Lemmas: the two ways of reading a body -/

namespace json

theorem scanValue_eof_of_blank (n : Nat) (cs : List Char) (h : skipSpace cs = []) :
    scanValue (n + 1) cs = .eof := by
  rw [scanValue, h]

theorem isSpace_of_skipSpace_nil (d : Char) (ds : List Char) (h : skipSpace (d :: ds) = []) :
    isSpace d = true := by
  by_cases hd : isSpace d = true
  · exact hd
  · simp [skipSpace, hd] at h

/-- A body that `Unmarshal` accepts as a whole is read by a `Decoder` as the same value. -/
theorem readValue_of_checkValid (body : String) (v : Value) (h : checkValid body = .ok v) :
    readValue body = .ok v := by
  unfold checkValid at h
  unfold readValue
  cases hs : scanValue (fuel body.data) body.data with
  | eof => simp [hs] at h
  | invalid => simp [hs] at h
  | ok v1 rest =>
    rw [hs] at h
    cases hr : skipSpace rest with
    | cons d ds => simp [hr] at h
    | nil =>
      simp only [hr] at h
      have hv : v1 = v := by injection h
      subst hv
      cases hb : skipSpace body.data with
      | nil =>
        have := scanValue_eof_of_blank (2 * body.data.length + 1) body.data hb
        simp only [fuel] at hs
        rw [this] at hs
        cases hs
      | cons c cs =>
        simp only []
        cases rest with
        | nil => cases v1 <;> rfl
        | cons d ds =>
          have hd := isSpace_of_skipSpace_nil d ds hr
          cases v1 <;> simp [hd]

theorem Decode_of_checkValid {T : Type} (store : Value → Except Error T) (body : String)
    (v : Value) (h : checkValid body = .ok v) : Decode store body = Unmarshal store body := by
  simp [Decode, Unmarshal, h, readValue_of_checkValid body v h]

end json

theorem http.Get_Set (h : http.Header) (key value : String) :
    (h.Set key value).Get key = value := by
  simp [http.Header.Set, http.Header.Get, List.lookup_cons]

/-! ## Lemmas: `createURL` and `parseError` -/

namespace binance

theorem createURL_RawQuery (c : Client) (req : RequestInterface) (parsedURL : url.URL) :
    (c.createURL req parsedURL).2.RawQuery =
      (req.EmbedData url.Values.empty).Encode ++ "&signature=" ++
        hex.EncodeToString (hmac.Sum c.secretKey (bytes (req.EmbedData url.Values.empty).Encode)) :=
  rfl

theorem length_signature (key : List Nat) (query : String) :
    (hex.EncodeToString (hmac.Sum key (bytes query))).length = 64 := by
  rw [hex.length_EncodeToString, hmac.length_Sum]

theorem signed_query_ne_empty (enc sig : String) : (enc ++ "&signature=" ++ sig != "") = true := by
  rw [bne_iff_ne]
  intro h
  have h1 := congrArg String.length h
  have h2 : "&signature=".length = 11 := by decide
  have h3 : "".length = 0 := by decide
  rw [String.length_append, String.length_append, h2, h3] at h1
  omega

/-- The result `parseError` gives: the decoded exchange error when the body deserializes
as one, the decode error otherwise. -/
theorem parseError_cases (b : String) :
    (∀ bErr, json.Unmarshal BinanceError.store b = .ok bErr → parseError b = .Binance bErr)
    ∧ (∀ err, json.Unmarshal BinanceError.store b = .error err → parseError b = err) := by
  constructor <;> intro x hx <;> simp [parseError, hx]

end binance

/-! ## Lemmas: an operation after its request reached the transport -/

namespace binance

theorem Account_out_of_calls (lib : Lib) (m : Models) (c : Client) (req : AccountRequest)
    (r : http.Request) (hcalls : (c.Account lib m req).calls = [r]) :
    (c.Account lib m req).out =
      match c.h r with
      | .error err => .returned (none, some err)
      | .ok resp =>
        if resp.StatusCode ≠ http.StatusOK then .returned (none, some (parseError resp.Body))
        else
          match json.Unmarshal m.storeAccount resp.Body with
          | .error err => .returned (none, some err)
          | .ok trades => .returned (some trades, none) := by
  unfold Client.Account at hcalls ⊢
  split at hcalls
  · simp at hcalls
  · split at hcalls
    · simp at hcalls
    · split at hcalls
      · simp at hcalls
      · rename_i r0 _
        generalize ({ r0 with Header := r0.Header.Set apiKeyHeader c.apiKey } : http.Request) = r1
          at hcalls ⊢
        dsimp only at hcalls ⊢
        have hrr : r1 = r := by
          repeat' split at hcalls
          all_goals simpa using hcalls
        subst hrr
        cases hh : c.h r1 with
        | error e => simp only [hh]
        | ok resp =>
          simp only [hh]
          by_cases hs : resp.StatusCode = http.StatusOK
          · simp only [hs, ne_eq, not_true_eq_false, if_false]
            cases hu : json.Unmarshal m.storeAccount resp.Body <;> simp only [hu]
          · simp only [hs, ne_eq, not_false_eq_true, if_true]


theorem MyTrades_out_of_calls (lib : Lib) (m : Models) (c : Client) (req : MyTradesRequest)
    (r : http.Request) (hcalls : (c.MyTrades lib m req).calls = [r]) :
    (c.MyTrades lib m req).out =
      match c.h r with
      | .error err => .returned (none, some err)
      | .ok resp =>
        match json.Decode (json.storeSlice "[]binance.Trade" m.storeTrade) resp.Body with
        | .error err => .returned (none, some err)
        | .ok trades => .returned (some ⟨trades⟩, none) := by
  unfold Client.MyTrades at hcalls ⊢
  split at hcalls
  · simp at hcalls
  · split at hcalls
    · simp at hcalls
    · split at hcalls
      · simp at hcalls
      · rename_i r0 _
        generalize ({ r0 with Header := r0.Header.Set apiKeyHeader c.apiKey } : http.Request) = r1
          at hcalls ⊢
        dsimp only at hcalls ⊢
        have hrr : r1 = r := by
          repeat' split at hcalls
          all_goals simpa using hcalls
        subst hrr
        cases hh : c.h r1 with
        | error e => simp only [hh]
        | ok resp =>
          simp only [hh]
          cases hu : json.Decode (json.storeSlice "[]binance.Trade" m.storeTrade) resp.Body <;>
            simp only [hu]

theorem AllOrderList_out_of_calls (lib : Lib) (m : Models) (c : Client)
    (req : AllOrdersRequest) (r : http.Request)
    (hcalls : (c.AllOrderList lib m req).calls = [r]) :
    (c.AllOrderList lib m req).out =
      match c.h r with
      | .error err => .returned (none, some err)
      | .ok resp =>
        match json.Decode (json.storeSlice "[]binance.Order" m.storeOrderRecord) resp.Body with
        | .error err => .returned (none, some err)
        | .ok orders => .returned (some ⟨orders⟩, none) := by
  unfold Client.AllOrderList at hcalls ⊢
  split at hcalls
  · simp at hcalls
  · split at hcalls
    · simp at hcalls
    · split at hcalls
      · simp at hcalls
      · rename_i r0 _
        generalize ({ r0 with Header := r0.Header.Set apiKeyHeader c.apiKey } : http.Request) = r1
          at hcalls ⊢
        dsimp only at hcalls ⊢
        have hrr : r1 = r := by
          repeat' split at hcalls
          all_goals simpa using hcalls
        subst hrr
        cases hh : c.h r1 with
        | error e => simp only [hh]
        | ok resp =>
          simp only [hh]
          cases hu : json.Decode (json.storeSlice "[]binance.Order" m.storeOrderRecord)
            resp.Body <;> simp only [hu]

theorem Order_out_of_calls (lib : Lib) (m : Models) (c : Client) (req : OrderRequest)
    (r : http.Request) (hcalls : (c.Order lib m req).calls = [r]) :
    (c.Order lib m req).out =
      match c.h r with
      | .error err => .returned (none, some err)
      | .ok resp =>
        if resp.StatusCode ≠ http.StatusOK then .returned (none, some (parseError resp.Body))
        else
          match json.Unmarshal m.storeOrder resp.Body with
          | .error err => .returned (none, some err)
          | .ok order => .returned (some order, none) := by
  unfold Client.Order at hcalls ⊢
  split at hcalls
  · simp at hcalls
  · split at hcalls
    · simp at hcalls
    · rename_i r0 _
      generalize ({ r0 with Header := r0.Header.Set apiKeyHeader c.apiKey } : http.Request) = r1
        at hcalls ⊢
      dsimp only at hcalls ⊢
      have hrr : r1 = r := by
        repeat' split at hcalls
        all_goals simpa using hcalls
      subst hrr
      cases hh : c.h r1 with
      | error e => simp only [hh]
      | ok resp =>
        simp only [hh]
        by_cases hs : resp.StatusCode = http.StatusOK
        · simp only [hs, ne_eq, not_true_eq_false, if_false]
          cases hu : json.Unmarshal m.storeOrder resp.Body <;> simp only [hu]
        · simp only [hs, ne_eq, not_false_eq_true, if_true]

theorem GetServerTime_out_of_calls (lib : Lib) (c : Client) (r : http.Request)
    (hcalls : (c.GetServerTime lib).calls = [r]) :
    (c.GetServerTime lib).out =
      match c.h r with
      | .error err => .returned (time.zero, some err)
      | .ok resp =>
        match json.Decode ServerTimeResponse.store resp.Body with
        | .error err => .returned (time.zero, some err)
        | .ok str => .returned (time.Unix (Int.tdiv str.ServerTime 1000) 0, none) := by
  unfold Client.GetServerTime at hcalls ⊢
  split at hcalls
  · simp at hcalls
  · split at hcalls
    · simp at hcalls
    · rename_i r1 _
      have hrr : r1 = r := by
        repeat' split at hcalls
        all_goals simpa using hcalls
      subst hrr
      cases hh : c.h r1 with
      | error e => simp only [hh]
      | ok resp =>
        simp only [hh]
        cases hu : json.Decode ServerTimeResponse.store resp.Body <;> simp only [hu]

theorem CurrentAveragePrice_out_of_calls (lib : Lib) (c : Client) (symbol : String)
    (r : http.Request) (hcalls : (c.CurrentAveragePrice lib symbol).calls = [r]) :
    (c.CurrentAveragePrice lib symbol).out =
      match c.h r with
      | .error err => .returned (lib.zero, some err)
      | .ok resp =>
        match json.Decode CurrentAveragePriceResponse.store resp.Body with
        | .error err => .returned (lib.zero, some err)
        | .ok capResp =>
          match lib.ParseFloat capResp.Price with
          | .error err => .returned (lib.zero, some err)
          | .ok fl => .returned (fl, none) := by
  unfold Client.CurrentAveragePrice at hcalls ⊢
  split at hcalls
  · simp at hcalls
  · split at hcalls
    · simp at hcalls
    · rename_i r0 _
      generalize ({ r0 with Header := r0.Header.Set apiKeyHeader c.apiKey } : http.Request) = r1
        at hcalls ⊢
      dsimp only at hcalls ⊢
      have hrr : r1 = r := by
        repeat' split at hcalls
        all_goals simpa using hcalls
      subst hrr
      cases hh : c.h r1 with
      | error e => simp only [hh]
      | ok resp =>
        simp only [hh]
        cases hu : json.Decode CurrentAveragePriceResponse.store resp.Body with
        | error e => simp only [hu]
        | ok capResp =>
          simp only [hu]
          cases hf : lib.ParseFloat capResp.Price <;> simp only [hf]

theorem SymbolTickerPrice_out_of_calls (lib : Lib) (c : Client) (symbol : String)
    (r : http.Request) (hcalls : (c.SymbolTickerPrice lib symbol).calls = [r]) :
    (c.SymbolTickerPrice lib symbol).out =
      match c.h r with
      | .error err => .returned (lib.zero, some err)
      | .ok resp =>
        match json.Unmarshal CurrentAveragePriceResponse.store resp.Body with
        | .error err => .returned (lib.zero, some err)
        | .ok capResp =>
          if resp.StatusCode ≠ http.StatusOK then
            .returned (lib.zero, some (parseError resp.Body))
          else
            match lib.ParseFloat capResp.Price with
            | .error err => .returned (lib.zero, some err)
            | .ok fl => .returned (fl, none) := by
  unfold Client.SymbolTickerPrice at hcalls ⊢
  split at hcalls
  · simp at hcalls
  · split at hcalls
    · simp at hcalls
    · rename_i r0 _
      generalize ({ r0 with Header := r0.Header.Set apiKeyHeader c.apiKey } : http.Request) = r1
        at hcalls ⊢
      dsimp only at hcalls ⊢
      have hrr : r1 = r := by
        repeat' split at hcalls
        all_goals simpa using hcalls
      subst hrr
      cases hh : c.h r1 with
      | error e => simp only [hh]
      | ok resp =>
        simp only [hh]
        cases hu : json.Unmarshal CurrentAveragePriceResponse.store resp.Body with
        | error e => simp only [hu]
        | ok capResp =>
          simp only [hu]
          by_cases hs : resp.StatusCode = http.StatusOK
          · simp only [hs, ne_eq, not_true_eq_false, if_false]
            cases hf : lib.ParseFloat capResp.Price <;> simp only [hf]
          · simp only [hs, ne_eq, not_false_eq_true, if_true]


/-- The requests `SymbolTickerPrice` hands to the transport. -/
theorem SymbolTickerPrice_calls (lib : Lib) (c : Client) (symbol : String) :
    (c.SymbolTickerPrice lib symbol).calls =
      match lib.Parse (c.base ++ "/" ++ currentAveragePricePath) with
      | .error _ => []
      | .ok parsedURL =>
        match http.NewRequest lib http.MethodGet
            (parsedURL.String ++ ("?symbol=" ++ symbol)) with
        | none => []
        | some r0 => [{ r0 with Header := r0.Header.Set apiKeyHeader c.apiKey }] := by
  unfold Client.SymbolTickerPrice
  split
  · rfl
  · split
    · rfl
    · rename_i r0 _
      generalize ({ r0 with Header := r0.Header.Set apiKeyHeader c.apiKey } : http.Request) = r1
      dsimp only
      repeat' split
      all_goals rfl

/-- The requests `CurrentAveragePrice` hands to the transport. -/
theorem CurrentAveragePrice_calls (lib : Lib) (c : Client) (symbol : String) :
    (c.CurrentAveragePrice lib symbol).calls =
      match lib.Parse (c.base ++ "/" ++ currentAveragePricePath) with
      | .error _ => []
      | .ok parsedURL =>
        match http.NewRequest lib http.MethodGet
            (parsedURL.String ++ ("?symbol=" ++ symbol)) with
        | none => []
        | some r0 => [{ r0 with Header := r0.Header.Set apiKeyHeader c.apiKey }] := by
  unfold Client.CurrentAveragePrice
  split
  · rfl
  · split
    · rfl
    · rename_i r0 _
      generalize ({ r0 with Header := r0.Header.Set apiKeyHeader c.apiKey } : http.Request) = r1
      dsimp only
      repeat' split
      all_goals rfl

/-- When the decoding step of an operation fails on the body of a status-200 response, the
operation returns a nil response and the decode error.  The step is `json.Unmarshal` of
the whole body for `Account` and `Order`, and `Decode` of the first JSON value of the body
for `MyTrades` and `AllOrderList`. -/
theorem decode_error_returned (lib : Lib) (m : Models) (c : Client) (req : RequestModel)
    (r : http.Request) (resp : http.Response) (err : Error) (hr : c.h r = .ok resp)
    (hs : resp.StatusCode = 200) :
    ((c.MyTrades lib m req).calls = [r] →
        json.Decode (json.storeSlice "[]binance.Trade" m.storeTrade) resp.Body = .error err →
        (c.MyTrades lib m req).out = .returned (none, some err))
    ∧ ((c.Account lib m req).calls = [r] →
        json.Unmarshal m.storeAccount resp.Body = .error err →
        (c.Account lib m req).out = .returned (none, some err))
    ∧ ((c.AllOrderList lib m req).calls = [r] →
        json.Decode (json.storeSlice "[]binance.Order" m.storeOrderRecord) resp.Body
          = .error err →
        (c.AllOrderList lib m req).out = .returned (none, some err))
    ∧ ((c.Order lib m req).calls = [r] →
        json.Unmarshal m.storeOrder resp.Body = .error err →
        (c.Order lib m req).out = .returned (none, some err)) := by
  refine ⟨?_, ?_, ?_, ?_⟩
  · intro hcalls hd
    rw [MyTrades_out_of_calls lib m c req r hcalls, hr]
    simp only [hd]
  · intro hcalls hd
    rw [Account_out_of_calls lib m c req r hcalls, hr]
    simp [http.StatusOK, hs, hd]
  · intro hcalls hd
    rw [AllOrderList_out_of_calls lib m c req r hcalls, hr]
    simp only [hd]
  · intro hcalls hd
    rw [Order_out_of_calls lib m c req r hcalls, hr]
    simp [http.StatusOK, hs, hd]

end binance

namespace binance

/-- Whatever the status, a body whose first JSON value is an object makes `MyTrades`
return the type error of storing an object into the slice of trades. -/
theorem MyTrades_object_body (lib : Lib) (m : Models) (c : Client) (req : MyTradesRequest)
    (r : http.Request) (resp : http.Response) (kvs : List (String × json.Value))
    (hcalls : (c.MyTrades lib m req).calls = [r]) (hr : c.h r = .ok resp)
    (hb : json.readValue resp.Body = .ok (.object kvs)) :
    (c.MyTrades lib m req).out
      = .returned (none, some (.UnmarshalTypeError "object" "[]binance.Trade")) := by
  rw [MyTrades_out_of_calls lib m c req r hcalls, hr]
  simp [json.Decode, hb, json.storeSlice, json.Value.kind]

end binance

/-! ## Claims -/

set_option maxRecDepth 1000000

namespace binance

/-- C1. For every client (so every secret key), every request model and every parsed base
URL, `createURL` leaves in the URL the raw query `enc ++ "&signature=" ++ sig`, where `enc`
is the encoding of the parameter set `EmbedData` produced and `sig` is the hexadecimal
HMAC-SHA256 of the bytes of that same `enc` under the secret key; the string it returns is
the URL with that raw query after `?`; the signature holds neither `&` nor `=`, so
`signature` is the final parameter; and `enc` is canonical: it is the encoding of the
parameter set in every iteration order of the map. -/
theorem createURL_signs_encoded_query (c : Client) (req : RequestInterface)
    (parsedURL : url.URL) :
    (c.createURL req parsedURL).2.RawQuery =
        (req.EmbedData url.Values.empty).Encode ++ "&signature=" ++
          hex.EncodeToString
            (hmac.Sum c.secretKey (bytes (req.EmbedData url.Values.empty).Encode))
    ∧ (c.createURL req parsedURL).1 =
        parsedURL.front ++ ("?" ++ (c.createURL req parsedURL).2.RawQuery) ++
          (if parsedURL.Fragment != "" then "#" ++ parsedURL.Fragment else "")
    ∧ (∀ ch ∈ (hex.EncodeToString
          (hmac.Sum c.secretKey (bytes (req.EmbedData url.Values.empty).Encode))).data,
        ch ≠ '&' ∧ ch ≠ '=')
    ∧ (∀ q : url.Values, q.entries.Perm (req.EmbedData url.Values.empty).entries →
        q.keys.Nodup → q.Encode = (req.EmbedData url.Values.empty).Encode) := by
  refine ⟨rfl, ?_, ?_, ?_⟩
  · simp only [Client.createURL, url.URL.String, signed_query_ne_empty, Bool.or_true, if_true]
  · intro ch hch
    have hmem := hex.mem_EncodeToString _ ch hch
    constructor <;> (rintro rfl; revert hmem; decide)
  · intro q p nd
    exact url.Encode_perm q _ p nd

/-- C1 on the trades request of the fixtures: the URL returned, with its signature, and
the encoding of the same parameter set listed in another order. -/
theorem createURL_signs_encoded_query_witness :
    ((fixture.client (.error .EOF)).createURL fixture.symbolRequest.toRequestInterface
        ⟨"https://api.binance.com/api/v3/myTrades", false, "", "top"⟩).1
      = "https://api.binance.com/api/v3/myTrades?recvWindow=5000&symbol=BTCUSDT&timestamp=1499827319559&signature=8fad9884eb5e3432bc778e2675f13b2210623aab54bfabb6b9af4f8cdb30476f#top"
    ∧ url.Values.Encode
        ⟨[("symbol", ["BTCUSDT"]), ("timestamp", ["1499827319559"]), ("recvWindow", ["5000"])]⟩
      = "recvWindow=5000&symbol=BTCUSDT&timestamp=1499827319559" :=
  ⟨((createURL_signs_encoded_query (fixture.client (.error .EOF))
        fixture.symbolRequest.toRequestInterface
        ⟨"https://api.binance.com/api/v3/myTrades", false, "", "top"⟩).2.1).trans (by rfl),
   ((createURL_signs_encoded_query (fixture.client (.error .EOF))
        fixture.symbolRequest.toRequestInterface
        ⟨"https://api.binance.com/api/v3/myTrades", false, "", "top"⟩).2.2.2
      ⟨[("symbol", ["BTCUSDT"]), ("timestamp", ["1499827319559"]), ("recvWindow", ["5000"])]⟩
      (by decide) (by decide)).trans (by rfl)⟩

/-- C2. For every request whose `Validate` returns a validation error, each of `MyTrades`,
`Account` and `AllOrderList` returns a nil response together with exactly that error, and
hands no request to the HTTP transport. -/
theorem validation_error_before_transport (lib : Lib) (m : Models) (c : Client)
    (req : RequestModel) (err : Error) (h : req.Validate = some err) :
    c.MyTrades lib m req = ⟨[], .returned (none, some err)⟩
    ∧ c.Account lib m req = ⟨[], .returned (none, some err)⟩
    ∧ c.AllOrderList lib m req = ⟨[], .returned (none, some err)⟩ := by
  simp [Client.MyTrades, Client.Account, Client.AllOrderList, h]

/-- C2 on the scenario of the spec: an account request with `recvWindow = 70000` is
rejected by `Validate`, and `Account` returns that error without a call of the
transport. -/
theorem validation_error_before_transport_witness :
    (fixture.accountRequest 70000).Validate
      = some (.errorString "recvWindow must be greater than 0 and not greater than 60000")
    ∧ (fixture.client (.ok ⟨200, "\x7b\x7d"⟩)).Account fixture.lib fixture.models
        (fixture.accountRequest 70000)
      = ⟨[], .returned (none,
          some (.errorString "recvWindow must be greater than 0 and not greater than 60000"))⟩ :=
  ⟨rfl, (validation_error_before_transport fixture.lib fixture.models
    (fixture.client (.ok ⟨200, "\x7b\x7d"⟩)) (fixture.accountRequest 70000) _ rfl).2.1⟩

/-- C3 at the input of the spec: a valid `MyTrades` request answered with status 400 and
the body of the exchange error -1021.  `parseError` decodes the body as that exchange
error, but `MyTrades` does not look at the status: it stores the body into the slice of
trades and returns the type error of that, not the exchange error. -/
theorem MyTrades_drops_exchange_error :
    fixture.symbolRequest.Validate = none
    ∧ parseError fixture.timestampErrorBody
      = .Binance ⟨-1021, "Timestamp for this request is outside of the recvWindow."⟩
    ∧ ((fixture.client (.ok ⟨400, fixture.timestampErrorBody⟩)).MyTrades fixture.lib
        fixture.models fixture.symbolRequest).out
      = .returned (none, some (.UnmarshalTypeError "object" "[]binance.Trade")) :=
  ⟨rfl, by rfl, by rfl⟩

/-- C4. For `Account` and for `Order`, whenever the transport answers the request of the
call with a response whose status code is not 200, the operation returns a nil response
and the error `parseError(body)`, whatever the body: the decoded exchange error when the
body deserializes as one, and the JSON decode error otherwise. -/
theorem non200_returns_parseError (lib : Lib) (m : Models) (c : Client) (req : RequestModel)
    (r : http.Request) (resp : http.Response) (hr : c.h r = .ok resp)
    (hs : resp.StatusCode ≠ 200) :
    ((c.Account lib m req).calls = [r] →
        (c.Account lib m req).out = .returned (none, some (parseError resp.Body)))
    ∧ ((c.Order lib m req).calls = [r] →
        (c.Order lib m req).out = .returned (none, some (parseError resp.Body)))
    ∧ (∀ bErr, json.Unmarshal BinanceError.store resp.Body = .ok bErr →
        parseError resp.Body = .Binance bErr)
    ∧ (∀ err, json.Unmarshal BinanceError.store resp.Body = .error err →
        parseError resp.Body = err) := by
  refine ⟨?_, ?_, (parseError_cases resp.Body).1, (parseError_cases resp.Body).2⟩
  · intro hcalls
    rw [Account_out_of_calls lib m c req r hcalls, hr]
    simp [http.StatusOK, hs]
  · intro hcalls
    rw [Order_out_of_calls lib m c req r hcalls, hr]
    simp [http.StatusOK, hs]

/-- C4 on two responses: status 400 with the exchange error -1021 for `Account`, and
status 502 with a body that is not JSON for `Order`. -/
theorem non200_returns_parseError_witness :
    ((fixture.client (.ok ⟨400, fixture.timestampErrorBody⟩)).Account fixture.lib
        fixture.models (fixture.accountRequest 5000)).out
      = .returned (none, some (.Binance
          ⟨-1021, "Timestamp for this request is outside of the recvWindow."⟩))
    ∧ ((fixture.client (.ok ⟨502, "<html>Bad Gateway</html>"⟩)).Order fixture.lib
        fixture.models fixture.symbolRequest).out
      = .returned (none, some (.SyntaxError "invalid character")) :=
  ⟨((non200_returns_parseError fixture.lib fixture.models
        (fixture.client (.ok ⟨400, fixture.timestampErrorBody⟩)) (fixture.accountRequest 5000)
        (fixture.sent "api/v3/account" "recvWindow=5000&timestamp=1499827319559&signature=82f4e72e95e63d666b6da651e82a701722ad8a785a169318d91f36f279c55821")
        ⟨400, fixture.timestampErrorBody⟩ rfl (by decide)).1 (by rfl)).trans (by rfl),
   ((non200_returns_parseError fixture.lib fixture.models
        (fixture.client (.ok ⟨502, "<html>Bad Gateway</html>"⟩)) fixture.symbolRequest
        (fixture.sent "api/v3/order" "recvWindow=5000&symbol=BTCUSDT&timestamp=1499827319559&signature=8fad9884eb5e3432bc778e2675f13b2210623aab54bfabb6b9af4f8cdb30476f")
        ⟨502, "<html>Bad Gateway</html>"⟩ rfl (by decide)).2.1 (by rfl)).trans (by rfl)⟩

/-- C5 at a failing input: status 200 with the body `null x`, which is not JSON and which
`json.Unmarshal` does not deserialize into a slice of trades or of orders.  `MyTrades`
and `AllOrderList` read only the first value of the body and return an empty response
model with a nil error; `Account`, which unmarshals the whole body, returns the decode
error. -/
theorem stream_decoding_accepts_malformed_body :
    json.Unmarshal (json.storeSlice "[]binance.Trade" fixture.models.storeTrade) "null x"
      = .error (.SyntaxError "invalid character after top-level value")
    ∧ ((fixture.client (.ok ⟨200, "null x"⟩)).MyTrades fixture.lib fixture.models
        fixture.symbolRequest).out = .returned (some ⟨[]⟩, none)
    ∧ ((fixture.client (.ok ⟨200, "null x"⟩)).AllOrderList fixture.lib fixture.models
        fixture.symbolRequest).out = .returned (some ⟨[]⟩, none)
    ∧ ((fixture.client (.ok ⟨200, "null x"⟩)).Account fixture.lib fixture.models
        (fixture.accountRequest 5000)).out
      = .returned (none, some (.SyntaxError "invalid character after top-level value")) :=
  ⟨by rfl, by rfl, by rfl, by rfl⟩

/-- C6. For every operation that returns a result (`MyTrades`, `Account`, `GetServerTime`,
`AllOrderList`, `CurrentAveragePrice`, `SymbolTickerPrice`, `Order`), if the transport
fails on the request of the call with error `e`, the operation returns the zero or nil
result together with exactly `e`, whatever the response models and their decoders are:
the failed call has no body and nothing is decoded. -/
theorem transport_error_returned_unchanged (lib : Lib) (m : Models) (c : Client)
    (req : RequestModel) (symbol : String) (r : http.Request) (e : Error)
    (hr : c.h r = .error e) :
    ((c.MyTrades lib m req).calls = [r] →
        (c.MyTrades lib m req).out = .returned (none, some e))
    ∧ ((c.Account lib m req).calls = [r] →
        (c.Account lib m req).out = .returned (none, some e))
    ∧ ((c.GetServerTime lib).calls = [r] →
        (c.GetServerTime lib).out = .returned (time.zero, some e))
    ∧ ((c.AllOrderList lib m req).calls = [r] →
        (c.AllOrderList lib m req).out = .returned (none, some e))
    ∧ ((c.CurrentAveragePrice lib symbol).calls = [r] →
        (c.CurrentAveragePrice lib symbol).out = .returned (lib.zero, some e))
    ∧ ((c.SymbolTickerPrice lib symbol).calls = [r] →
        (c.SymbolTickerPrice lib symbol).out = .returned (lib.zero, some e))
    ∧ ((c.Order lib m req).calls = [r] →
        (c.Order lib m req).out = .returned (none, some e)) := by
  refine ⟨?_, ?_, ?_, ?_, ?_, ?_, ?_⟩
  · intro hcalls
    rw [MyTrades_out_of_calls lib m c req r hcalls, hr]
  · intro hcalls
    rw [Account_out_of_calls lib m c req r hcalls, hr]
  · intro hcalls
    rw [GetServerTime_out_of_calls lib c r hcalls, hr]
  · intro hcalls
    rw [AllOrderList_out_of_calls lib m c req r hcalls, hr]
  · intro hcalls
    rw [CurrentAveragePrice_out_of_calls lib c symbol r hcalls, hr]
  · intro hcalls
    rw [SymbolTickerPrice_out_of_calls lib c symbol r hcalls, hr]
  · intro hcalls
    rw [Order_out_of_calls lib m c req r hcalls, hr]

/-- C6 on a transport that times out, for `MyTrades` and `GetServerTime`. -/
theorem transport_error_returned_unchanged_witness :
    ((fixture.client (.error (.errorString "dial tcp: i/o timeout"))).MyTrades fixture.lib
        fixture.models fixture.symbolRequest).out
      = .returned (none, some (.errorString "dial tcp: i/o timeout"))
    ∧ ((fixture.client (.error (.errorString "dial tcp: i/o timeout"))).GetServerTime
        fixture.lib).out
      = .returned (time.zero, some (.errorString "dial tcp: i/o timeout")) :=
  ⟨(transport_error_returned_unchanged fixture.lib fixture.models
      (fixture.client (.error (.errorString "dial tcp: i/o timeout"))) fixture.symbolRequest
      "BTCUSDT"
      (fixture.sent "api/v3/myTrades" "recvWindow=5000&symbol=BTCUSDT&timestamp=1499827319559&signature=8fad9884eb5e3432bc778e2675f13b2210623aab54bfabb6b9af4f8cdb30476f")
      (.errorString "dial tcp: i/o timeout") rfl).1 (by rfl),
   (transport_error_returned_unchanged fixture.lib fixture.models
      (fixture.client (.error (.errorString "dial tcp: i/o timeout"))) fixture.symbolRequest
      "BTCUSDT" ⟨"GET", ⟨"https://api.binance.com/api/v3/time", false, "", ""⟩, ⟨[]⟩⟩
      (.errorString "dial tcp: i/o timeout") rfl).2.2.1 (by rfl)⟩

/-- C7. For every secret key and every encoded query string, the signature is a string of
exactly 64 characters, each of them one of `0123456789abcdef`; and it is this function of
the key and the query string that `createURL` appends: two calls with the same secret key
and the same encoded query string leave the same raw query. -/
theorem signature_is_64_lowercase_hex (key : List Nat) (query : String) :
    (hex.EncodeToString (hmac.Sum key (bytes query))).length = 64
    ∧ (∀ ch ∈ (hex.EncodeToString (hmac.Sum key (bytes query))).data,
        ch ∈ "0123456789abcdef".data)
    ∧ (∀ (c : Client) (req : RequestInterface) (parsedURL : url.URL),
        c.secretKey = key → (req.EmbedData url.Values.empty).Encode = query →
        (c.createURL req parsedURL).2.RawQuery =
          query ++ "&signature=" ++ hex.EncodeToString (hmac.Sum key (bytes query))) := by
  refine ⟨length_signature key query, fun ch hch => hex.mem_EncodeToString _ ch hch, ?_⟩
  intro c req parsedURL hk hq
  rw [createURL_RawQuery, hk, hq]

/-- C7 on the secret key and the trades request of the fixtures. -/
theorem signature_is_64_lowercase_hex_witness :
    (hex.EncodeToString (hmac.Sum (fixture.client (.error .EOF)).secretKey
        (bytes "recvWindow=5000&symbol=BTCUSDT&timestamp=1499827319559"))).length = 64
    ∧ ((fixture.client (.error .EOF)).createURL fixture.symbolRequest.toRequestInterface
        ⟨"https://api.binance.com/api/v3/myTrades", false, "", ""⟩).2.RawQuery
      = "recvWindow=5000&symbol=BTCUSDT&timestamp=1499827319559&signature=8fad9884eb5e3432bc778e2675f13b2210623aab54bfabb6b9af4f8cdb30476f" :=
  ⟨(signature_is_64_lowercase_hex (fixture.client (.error .EOF)).secretKey
      "recvWindow=5000&symbol=BTCUSDT&timestamp=1499827319559").1,
   ((signature_is_64_lowercase_hex (fixture.client (.error .EOF)).secretKey
      "recvWindow=5000&symbol=BTCUSDT&timestamp=1499827319559").2.2
      (fixture.client (.error .EOF)) fixture.symbolRequest.toRequestInterface
      ⟨"https://api.binance.com/api/v3/myTrades", false, "", ""⟩ rfl (by rfl)).trans (by rfl)⟩

/-- C8 at a failing input: an order request without its mandatory symbol, which `Validate`
rejects.  `Order` hands one request to the transport and returns what the exchange
answered, with a nil error, where `Account` on a request that `Validate` rejects returns
the validation error without a call.  `Order` never calls `Validate`: its run is the same
whatever `Validate` returns. -/
theorem Order_skips_validation :
    fixture.orderRequestNoSymbol.Validate = some (.errorString "symbol is mandatory")
    ∧ ((fixture.client (.ok ⟨200, "\x7b\"orderId\":28\x7d"⟩)).Order fixture.lib fixture.models
        fixture.orderRequestNoSymbol).calls
      = [fixture.sent "api/v3/order" "timestamp=1499827319559&signature=2222d49722f6af5da13f6da6bfc0d7de19ca2815ebc98bbc49e4942268472f3f"]
    ∧ ((fixture.client (.ok ⟨200, "\x7b\"orderId\":28\x7d"⟩)).Order fixture.lib fixture.models
        fixture.orderRequestNoSymbol).out
      = .returned (some ⟨[("orderId", .number "28")]⟩, none)
    ∧ ((fixture.client (.ok ⟨200, "\x7b\"orderId\":28\x7d"⟩)).Account fixture.lib fixture.models
        fixture.orderRequestNoSymbol)
      = ⟨[], .returned (none, some (.errorString "symbol is mandatory"))⟩
    ∧ (∀ (lib : Lib) (m : Models) (c : Client) (req : OrderRequest) (v : Option Error),
        c.Order lib m { req with Validate := v } = c.Order lib m req) :=
  ⟨rfl, by rfl, by rfl, by rfl, fun _ _ _ _ _ => rfl⟩

/-- C9 fails at status 200 with the body `{"price":"1.5"} x`: `CurrentAveragePrice` reads
the first JSON value of the body and returns the price with a nil error, while
`SymbolTickerPrice` unmarshals the whole body and returns a syntax error, so the two
results differ.  It also fails for a client whose base URL `url.Parse` rejects, here for a
line feed in it: no request is built. -/
theorem SymbolTickerPrice_differs_on_trailing_data :
    ((fixture.client (.ok ⟨200, "\x7b\"price\":\"1.5\"\x7d x"⟩)).CurrentAveragePrice fixture.lib
        "BTCUSDT").out = .returned ("1.5", none)
    ∧ ((fixture.client (.ok ⟨200, "\x7b\"price\":\"1.5\"\x7d x"⟩)).SymbolTickerPrice fixture.lib
        "BTCUSDT").out
      = .returned ("0", some (.SyntaxError "invalid character after top-level value"))
    ∧ ((fixture.client (.ok ⟨200, "\x7b\"price\":\"1.5\"\x7d x"⟩)).SymbolTickerPrice fixture.lib
        "BTCUSDT").out
      ≠ ((fixture.client (.ok ⟨200, "\x7b\"price\":\"1.5\"\x7d x"⟩)).CurrentAveragePrice
        fixture.lib "BTCUSDT").out
    ∧ (NewBinance (fun _ => .ok ⟨200, "\x7b\"price\":\"1.5\"\x7d"⟩) "https://api.binance.com\n"
        "" []).SymbolTickerPrice fixture.lib "BTCUSDT"
      = ⟨[], .returned ("0", some (.errorString "net/url: invalid control character in URL"))⟩ := by
  have h1 : ((fixture.client (.ok ⟨200, "\x7b\"price\":\"1.5\"\x7d x"⟩)).CurrentAveragePrice
      fixture.lib "BTCUSDT").out = .returned ("1.5", none) := by rfl
  have h2 : ((fixture.client (.ok ⟨200, "\x7b\"price\":\"1.5\"\x7d x"⟩)).SymbolTickerPrice
      fixture.lib "BTCUSDT").out
      = .returned ("0", some (.SyntaxError "invalid character after top-level value")) := by
    rfl
  refine ⟨h1, h2, ?_, by rfl⟩
  rw [h1, h2]
  intro h
  injection h with h
  injection h with _ h
  cases h

/-- C9, as amended.  For every client and every symbol string, `SymbolTickerPrice` and
`CurrentAveragePrice` hand the same requests to the transport.  A request they hand over
is the one `http.NewRequest` builds with method `GET` from the string
`parsedURL.String() + "?symbol=" + symbol`, where `parsedURL` is `url.Parse` of
`base + "/" + "api/v3/avgPrice"` and the symbol is inserted as it is, and it carries the
header `X-MBX-APIKEY` with the API key: the ticker-price operation queries the
average-price endpoint.  For every status-200 response whose body is one JSON value with
nothing but white space around it, the two operations return the same result. -/
theorem SymbolTickerPrice_as_CurrentAveragePrice (lib : Lib) (c : Client) (symbol : String) :
    (c.SymbolTickerPrice lib symbol).calls = (c.CurrentAveragePrice lib symbol).calls
    ∧ (∀ r ∈ (c.SymbolTickerPrice lib symbol).calls,
        ∃ parsedURL u : url.URL,
          lib.Parse (c.base ++ "/" ++ "api/v3/avgPrice") = .ok parsedURL
          ∧ lib.Parse (parsedURL.String ++ ("?symbol=" ++ symbol)) = .ok u
          ∧ r.URL = lib.removeEmptyPort u
          ∧ r.Method = "GET"
          ∧ r.Header.Get "X-MBX-APIKEY" = c.apiKey
          ∧ (c.SymbolTickerPrice lib symbol).calls = [r])
    ∧ (∀ (r : http.Request) (resp : http.Response) (v : json.Value),
        (c.SymbolTickerPrice lib symbol).calls = [r] → c.h r = .ok resp →
        resp.StatusCode = 200 → json.checkValid resp.Body = .ok v →
        (c.SymbolTickerPrice lib symbol).out = (c.CurrentAveragePrice lib symbol).out) := by
  have hcalls : (c.SymbolTickerPrice lib symbol).calls
      = (c.CurrentAveragePrice lib symbol).calls := by
    rw [SymbolTickerPrice_calls, CurrentAveragePrice_calls]
  refine ⟨hcalls, ?_, ?_⟩
  · intro r hmem
    have hc := SymbolTickerPrice_calls lib c symbol
    rw [hc] at hmem
    cases hp : lib.Parse (c.base ++ "/" ++ currentAveragePricePath) with
    | error e => simp [hp] at hmem
    | ok parsedURL =>
      simp only [hp] at hmem hc
      cases hn : http.NewRequest lib http.MethodGet
          (parsedURL.String ++ ("?symbol=" ++ symbol)) with
      | none => simp [hn] at hmem
      | some r0 =>
        simp only [hn] at hmem hc
        have hrr : r = { r0 with Header := r0.Header.Set apiKeyHeader c.apiKey } := by
          simpa using hmem
        unfold http.NewRequest at hn
        split at hn
        · rename_i u hu
          injection hn with hn
          subst hn
          subst hrr
          exact ⟨parsedURL, u, hp, hu, rfl, rfl, http.Get_Set _ _ _, hc⟩
        · cases hn
  · intro r resp v hc hr hs hv
    rw [SymbolTickerPrice_out_of_calls lib c symbol r hc,
      CurrentAveragePrice_out_of_calls lib c symbol r (hcalls ▸ hc), hr]
    simp only [json.Decode_of_checkValid _ _ v hv]
    cases hu : json.Unmarshal CurrentAveragePriceResponse.store resp.Body with
    | error e => rfl
    | ok capResp => simp [http.StatusOK, hs]

/-- C9, as amended, on a status-200 response with the average price of the exchange
documentation: both operations send the same request and return the price. -/
theorem SymbolTickerPrice_as_CurrentAveragePrice_witness :
    ((fixture.client (.ok ⟨200, "\x7b\"mins\":5,\"price\":\"9.35751834\"\x7d\n"⟩)).SymbolTickerPrice
        fixture.lib "BTCUSDT").calls = [fixture.sent "api/v3/avgPrice" "symbol=BTCUSDT"]
    ∧ ((fixture.client (.ok ⟨200, "\x7b\"mins\":5,\"price\":\"9.35751834\"\x7d\n"⟩)).SymbolTickerPrice
        fixture.lib "BTCUSDT").out
      = ((fixture.client (.ok ⟨200, "\x7b\"mins\":5,\"price\":\"9.35751834\"\x7d\n"⟩)).CurrentAveragePrice
        fixture.lib "BTCUSDT").out
    ∧ ((fixture.client (.ok ⟨200, "\x7b\"mins\":5,\"price\":\"9.35751834\"\x7d\n"⟩)).CurrentAveragePrice
        fixture.lib "BTCUSDT").out = .returned ("9.35751834", none) :=
  ⟨by rfl,
   (SymbolTickerPrice_as_CurrentAveragePrice fixture.lib
      (fixture.client (.ok ⟨200, "\x7b\"mins\":5,\"price\":\"9.35751834\"\x7d\n"⟩)) "BTCUSDT").2.2
      (fixture.sent "api/v3/avgPrice" "symbol=BTCUSDT")
      ⟨200, "\x7b\"mins\":5,\"price\":\"9.35751834\"\x7d\n"⟩
      (.object [("mins", .number "5"), ("price", .string "9.35751834")])
      (by rfl) rfl rfl (by rfl),
   by rfl⟩

/-- C10. For every response to the server-time request whose body decodes with
millisecond integer `serverTime = t`, whatever its status code, `GetServerTime` returns,
with a nil error, the instant with Unix seconds `t / 1000` under integer division
truncating toward zero and nanoseconds 0; so a second call whose response decodes with
`t2`, where `t2 / 1000 = t / 1000`, returns the same time. -/
theorem GetServerTime_truncates_to_seconds (lib : Lib) (c : Client) (r : http.Request)
    (resp : http.Response) (t : Int) (hcalls : (c.GetServerTime lib).calls = [r])
    (hr : c.h r = .ok resp)
    (hd : json.Decode ServerTimeResponse.store resp.Body = .ok ⟨t⟩) :
    (c.GetServerTime lib).out = .returned (⟨Int.tdiv t 1000, 0⟩, none)
    ∧ (∀ (c2 : Client) (r2 : http.Request) (resp2 : http.Response) (t2 : Int),
        (c2.GetServerTime lib).calls = [r2] → c2.h r2 = .ok resp2 →
        json.Decode ServerTimeResponse.store resp2.Body = .ok ⟨t2⟩ →
        Int.tdiv t2 1000 = Int.tdiv t 1000 →
        (c2.GetServerTime lib).out = (c.GetServerTime lib).out) := by
  have key : ∀ (c : Client) (r : http.Request) (resp : http.Response) (t : Int),
      (c.GetServerTime lib).calls = [r] → c.h r = .ok resp →
      json.Decode ServerTimeResponse.store resp.Body = .ok ⟨t⟩ →
      (c.GetServerTime lib).out = .returned (⟨Int.tdiv t 1000, 0⟩, none) := by
    intro c r resp t hcalls hr hd
    rw [GetServerTime_out_of_calls lib c r hcalls, hr]
    simp only [hd]
    simp [time.Unix]
  refine ⟨key c r resp t hcalls hr hd, ?_⟩
  intro c2 r2 resp2 t2 hcalls2 hr2 hd2 ht
  rw [key c2 r2 resp2 t2 hcalls2 hr2 hd2, key c r resp t hcalls hr hd, ht]

/-- C10 on `serverTime = -1500` with status 503: the seconds are -1, rounded toward zero,
and `serverTime = -1999` with status 200 gives the same instant. -/
theorem GetServerTime_truncates_to_seconds_witness :
    ((fixture.client (.ok ⟨503, "\x7b\"serverTime\":-1500\x7d"⟩)).GetServerTime fixture.lib).out
      = .returned (⟨-1, 0⟩, none)
    ∧ ((fixture.client (.ok ⟨200, "\x7b\"serverTime\":-1999\x7d"⟩)).GetServerTime fixture.lib).out
      = ((fixture.client (.ok ⟨503, "\x7b\"serverTime\":-1500\x7d"⟩)).GetServerTime
        fixture.lib).out :=
  ⟨(GetServerTime_truncates_to_seconds fixture.lib
      (fixture.client (.ok ⟨503, "\x7b\"serverTime\":-1500\x7d"⟩))
      ⟨"GET", ⟨"https://api.binance.com/api/v3/time", false, "", ""⟩, ⟨[]⟩⟩
      ⟨503, "\x7b\"serverTime\":-1500\x7d"⟩ (-1500) (by rfl) rfl (by rfl)).1.trans (by rfl),
   (GetServerTime_truncates_to_seconds fixture.lib
      (fixture.client (.ok ⟨503, "\x7b\"serverTime\":-1500\x7d"⟩))
      ⟨"GET", ⟨"https://api.binance.com/api/v3/time", false, "", ""⟩, ⟨[]⟩⟩
      ⟨503, "\x7b\"serverTime\":-1500\x7d"⟩ (-1500) (by rfl) rfl (by rfl)).2
      (fixture.client (.ok ⟨200, "\x7b\"serverTime\":-1999\x7d"⟩))
      ⟨"GET", ⟨"https://api.binance.com/api/v3/time", false, "", ""⟩, ⟨[]⟩⟩
      ⟨200, "\x7b\"serverTime\":-1999\x7d"⟩ (-1999) (by rfl) rfl (by rfl) (by decide)⟩

end binance
